import Mathlib

/-!
Shallow embedding of the aeolus-rs mesh/topology core (the `grid`, `common`
and geometry crates) and verification of its specification claims.

Modelling conventions:
* Rust `f64` (`Real`) is modelled by `ℝ`; `usize` by `ℕ`.
* A Rust `panic!`/`expect`/`unwrap`/failed assertion is modelled by `Option`
  (`none` = the program aborts) or, where the error value matters, `Except`.
* Rust `HashMap` is modelled by an association list; its iteration order is
  unspecified in Rust, the list order stands in for it here.
* Decimal strings are Lean `String`s; `Nat` formatting reuses `toString`
  (equivalently `Nat.repr`), while `str::parse::<usize>` is modelled by a
  structural fold over the characters (`parse_usize`) because the behaviour,
  not the library routine, is what the source relies on.
* Divisions by zero that would produce `NaN`/`inf` in `f64` are total in `ℝ`
  (`x / 0 = 0`); every claim proved below either excludes those inputs by
  hypothesis or leads to an abort (`none`) on both sides.
-/

namespace Aeolus

noncomputable section

/-! ## common/src/vector3.rs -/

/-- A generic 3 dimensional vector (struct `Vector3`). -/
structure Vector3 where
  x : ℝ
  y : ℝ
  z : ℝ


/-- Vector3::new_from_vec: build a vector from a list of coordinates;
0 or more than 3 numbers is a panic. -/
def Vector3.new_from_vec (vector : List ℝ) : Option Vector3 :=
  match vector with
  | [] => none
  | [a] => some ⟨a, 0, 0⟩
  | [a, b] => some ⟨a, b, 0⟩
  | [a, b, c] => some ⟨a, b, c⟩
  | _ => none

/-- Vector3::length. -/
def Vector3.length (v : Vector3) : ℝ :=
  Real.sqrt (v.x * v.x + v.y * v.y + v.z * v.z)

/-- Vector3::scale_in_place, as a value computation. -/
def Vector3.scale (v : Vector3) (factor : ℝ) : Vector3 :=
  ⟨v.x * factor, v.y * factor, v.z * factor⟩

/-- Vector3::normalised. -/
def Vector3.normalised (v : Vector3) : Vector3 :=
  let length := v.length
  ⟨v.x / length, v.y / length, v.z / length⟩

/-- Vector3::dist_to. -/
def Vector3.dist_to (v other : Vector3) : ℝ :=
  let x := other.x - v.x
  let y := other.y - v.y
  let z := other.z - v.z
  Real.sqrt (x * x + y * y + z * z)

/-- Vector3::dot. -/
def Vector3.dot (v other : Vector3) : ℝ :=
  v.x * other.x + v.y * other.y + v.z * other.z

/-- Vector3::cross. -/
def Vector3.cross (v other : Vector3) : Vector3 :=
  ⟨v.y * other.z - v.z * other.y,
   v.z * other.x - v.x * other.z,
   v.x * other.y - v.y * other.x⟩

/-- impl Add for Vector3 (componentwise). -/
instance : Add Vector3 :=
  ⟨fun a b => ⟨a.x + b.x, a.y + b.y, a.z + b.z⟩⟩

/-- impl Sub for Vector3 (componentwise). -/
instance : Sub Vector3 :=
  ⟨fun a b => ⟨a.x - b.x, a.y - b.y, a.z - b.z⟩⟩

theorem Vector3.add_def (a b : Vector3) :
    a + b = ⟨a.x + b.x, a.y + b.y, a.z + b.z⟩ := rfl

theorem Vector3.sub_def (a b : Vector3) :
    a - b = ⟨a.x - b.x, a.y - b.y, a.z - b.z⟩ := rfl

/-! ## grid/src/vertex.rs -/

/-- Geometric vertex (struct `GridVertex`). -/
structure GridVertex where
  pos : Vector3
  id : ℕ

/-- GridVertex::new. -/
def GridVertex.new (pos : Vector3) (id : ℕ) : GridVertex := ⟨pos, id⟩

/-- GridVertex::vector_to: the vector from `v` to `other`. -/
def GridVertex.vector_to (v other : GridVertex) : Vector3 :=
  other.pos - v.pos

/-! ## geom_calc.rs -/

/-- triangle_area: the 3-point cross-product area formula
`0.5 * |x0 (y1 - y2) + x1 (y2 - y0) + x2 (y0 - y1)|`; anything other than
exactly three vertices is outside the function's contract (debug assertion
plus out-of-bounds indexing), modelled as `none`. -/
def triangle_area (vertices : List GridVertex) : Option ℝ :=
  match vertices with
  | [va, vb, vc] =>
    let a := va.pos
    let b := vb.pos
    let c := vc.pos
    some ((1 / 2) * |a.x * (b.y - c.y) + b.x * (c.y - a.y) + c.x * (a.y - b.y)|)
  | _ => none

/-- quad_area: the shoelace formula on the four vertices in declared order. -/
def quad_area (vertices : List GridVertex) : Option ℝ :=
  match vertices with
  | [va, vb, vc, vd] =>
    let a := va.pos
    let b := vb.pos
    let c := vc.pos
    let d := vd.pos
    let tmp_plus := a.x * b.y + b.x * c.y + c.x * d.y + d.x * a.y
    let tmp_minus := b.x * a.y + c.x * b.y + d.x * c.y + a.x * d.y
    some ((1 / 2) * |tmp_plus - tmp_minus|)
  | _ => none

/-- compute_centre_of_vertices: arithmetic mean of the vertex positions. -/
def compute_centre_of_vertices (vertices : List GridVertex) : Vector3 :=
  let centre := vertices.foldl (fun c v => c + v.pos) ⟨0, 0, 0⟩
  centre.scale (1 / (vertices.length : ℝ))

/-! ## grid/src/interface.rs -/

/-- Allowable interface shapes. -/
inductive InterfaceShape where
  | Line
deriving DecidableEq

/-- InterfaceShape::from_number_of_vertices: 2 vertices give a line,
anything else panics. -/
def InterfaceShape.from_number_of_vertices (n_vertices : ℕ) : Option InterfaceShape :=
  match n_vertices with
  | 2 => some InterfaceShape.Line
  | _ => none

/-- InterfaceShape::from_su2_element_type: 3 is a line, anything else panics. -/
def InterfaceShape.from_su2_element_type (elem_type : ℕ) : Option InterfaceShape :=
  match elem_type with
  | 3 => some InterfaceShape.Line
  | _ => none

/-- InterfaceShape::to_su2_element_type. -/
def InterfaceShape.to_su2_element_type : InterfaceShape → ℕ
  | InterfaceShape.Line => 3

/-- Whether an interface points inwards or outwards for a particular cell. -/
inductive Direction where
  | Inwards
  | Outwards
deriving DecidableEq

/-- A geometric interface (struct `GridInterface`). -/
structure GridInterface where
  vertex_ids : List ℕ
  area : ℝ
  n : Vector3
  t1 : Vector3
  t2 : Vector3
  centre : Vector3
  shape : InterfaceShape
  id : ℕ

/-- GridInterface::new_from_vertices: only the two-vertex (line) case is
supported; any other vertex count panics in `InterfaceShape::from_number_of_vertices`. -/
def GridInterface.new_from_vertices (vertices : List GridVertex) (id : ℕ) :
    Option GridInterface :=
  match vertices with
  | [v0, v1] =>
    let v0v1 := v0.vector_to v1
    let t1 := v0v1.normalised
    let t2 : Vector3 := ⟨0, 0, 1⟩
    let n := (t1.cross t2).normalised
    let area := v0v1.length
    let centre := compute_centre_of_vertices [v0, v1]
    some ⟨[v0.id, v1.id], area, n, t1, t2, centre, InterfaceShape.Line, id⟩
  | _ => none

/-- The interface value new_from_vertices builds in its two-vertex (line)
branch, as a named abbreviation for use in proofs. -/
def GridInterface.new_line (v0 v1 : GridVertex) (id : ℕ) : GridInterface :=
  let v0v1 := v0.vector_to v1
  let t1 := v0v1.normalised
  let t2 : Vector3 := ⟨0, 0, 1⟩
  ⟨[v0.id, v1.id], v0v1.length, (t1.cross t2).normalised, t1, t2,
   compute_centre_of_vertices [v0, v1], InterfaceShape.Line, id⟩

/-- A placeholder interface (only used to keep the writer's out-of-range
indexing total; the round-trip theorem's hypotheses rule the case out). -/
instance : Inhabited GridInterface :=
  ⟨⟨[], 0, ⟨0, 0, 0⟩, ⟨0, 0, 0⟩, ⟨0, 0, 0⟩, ⟨0, 0, 0⟩, InterfaceShape.Line, 0⟩⟩

/-- GridInterface::compute_direction: classify a point against the interface
plane; a dot product smaller than 1e-14 in magnitude is the panic
"The point is on the interface". -/
def GridInterface.compute_direction (iface : GridInterface) (point : Vector3) :
    Option Direction :=
  let dir := point - iface.centre
  let dot := dir.dot iface.n
  if |dot| < 1e-14 then none
  else if dot > 0 then some Direction.Inwards
  else some Direction.Outwards

/-- GridInterface::equal_to_vertices: every queried vertex id must occur among
the interface's vertex ids (a containment test on the query). -/
def GridInterface.equal_to_vertices (iface : GridInterface)
    (other : List GridVertex) : Bool :=
  other.all (fun other_vertex =>
    iface.vertex_ids.any (fun this_vertex_id => this_vertex_id == other_vertex.id))

/-- str::parse::<usize> on a decimal string: fails on an empty string or any
non-digit character, otherwise accumulates the decimal value. -/
def parse_usize (s : String) : Option ℕ :=
  if s.data.isEmpty then none
  else if s.data.all (fun c => c.isDigit) then
    some (s.data.foldl (fun n c => n * 10 + (c.toNat - 48)) 0)
  else none

/-- Free function `hash` in interface.rs: sort the vertex ids, highest to
lowest, concatenate their decimal representations and parse the result back
as an integer (`parse().unwrap()`; an empty id list panics, hence `Option`). -/
def hash (vertex_ids : List ℕ) : Option ℕ :=
  let id_vec := (vertex_ids.insertionSort (· ≤ ·)).reverse
  let h := id_vec.foldl (fun s id => s ++ toString id) ""
  parse_usize h

/-- Handles a collection of interfaces, making sure each one is unique
(struct `InterfaceCollection`): `interfaces` maps the canonical hash to the
interface, `id_to_hash` maps an assigned id back to the hash. -/
structure InterfaceCollection where
  interfaces : List (ℕ × GridInterface)
  id_to_hash : List (ℕ × ℕ)

/-- InterfaceCollection::with_capacity (capacity is irrelevant to behaviour). -/
def InterfaceCollection.empty : InterfaceCollection := ⟨[], []⟩

/-- InterfaceCollection::add_or_retrieve: hash the vertex ids; a fresh hash
registers a new interface whose id is the current collection size, a known
hash returns the already-registered interface's id. -/
def InterfaceCollection.add_or_retrieve (c : InterfaceCollection)
    (vertices : List GridVertex) : Option (ℕ × InterfaceCollection) := do
  let vertex_ids := vertices.map GridVertex.id
  let h ← hash vertex_ids
  match c.interfaces.lookup h with
  | some iface => pure (iface.id, c)
  | none => do
    let iface ← GridInterface.new_from_vertices vertices c.interfaces.length
    let c1 : InterfaceCollection :=
      ⟨c.interfaces ++ [(h, iface)], c.id_to_hash ++ [(iface.id, h)]⟩
    pure (iface.id, c1)

/-- InterfaceCollection::find_interface: look the hash up; a hash that was
never registered panics (HashMap indexing), modelled as `none`. -/
def InterfaceCollection.find_interface (c : InterfaceCollection)
    (vertices : List GridVertex) : Option ℕ := do
  let vertex_ids := vertices.map GridVertex.id
  let h ← hash vertex_ids
  let iface ← c.interfaces.lookup h
  pure iface.id

/-! ## grid/src/cell.rs -/

/-- The shape of the cell. -/
inductive CellShape where
  | Triangle
  | Quadrilateral
deriving DecidableEq

/-- CellShape::from_number_of_vertices: 3 gives a triangle, 4 a
quadrilateral, anything else panics. -/
def CellShape.from_number_of_vertices (n_vertices : ℕ) : Option CellShape :=
  match n_vertices with
  | 3 => some CellShape.Triangle
  | 4 => some CellShape.Quadrilateral
  | _ => none

/-- CellShape::number_of_vertices. -/
def CellShape.number_of_vertices : CellShape → ℕ
  | CellShape.Triangle => 3
  | CellShape.Quadrilateral => 4

/-- CellShape::from_su2_element_type: 5 is a triangle, 9 a quadrilateral,
anything else panics. -/
def CellShape.from_su2_element_type (elem_type : ℕ) : Option CellShape :=
  match elem_type with
  | 5 => some CellShape.Triangle
  | 9 => some CellShape.Quadrilateral
  | _ => none

/-- CellShape::to_su2_element_type. -/
def CellShape.to_su2_element_type : CellShape → ℕ
  | CellShape.Triangle => 5
  | CellShape.Quadrilateral => 9

/-- CellShape::interfaces: the fixed edge pattern of the shape, indexing the
supplied vertex-id list; an id list shorter than the shape's vertex count
panics (slice indexing), surplus entries are ignored. -/
def CellShape.interfaces (shape : CellShape) (vertices : List ℕ) :
    Option (List (List ℕ)) :=
  match shape, vertices with
  | CellShape.Triangle, v0 :: v1 :: v2 :: _ =>
    some [[v0, v1], [v1, v2], [v2, v0]]
  | CellShape.Quadrilateral, v0 :: v1 :: v2 :: v3 :: _ =>
    some [[v0, v1], [v1, v2], [v2, v3], [v3, v0]]
  | _, _ => none

/-- CellShape::volume: dispatch to the area formula matching the shape. -/
def CellShape.volume (shape : CellShape) (vertices : List GridVertex) : Option ℝ :=
  match shape with
  | CellShape.Triangle => triangle_area vertices
  | CellShape.Quadrilateral => quad_area vertices

/-- Run a fallible computation over a list, collecting the results in order
and aborting on the first failure: the shape of every `for` loop in the
source that indexes, parses or classifies and propagates a panic. -/
def map_option {A B : Type} (f : A → Option B) : List A → Option (List B)
  | [] => some []
  | a :: rest => do
    let b ← f a
    let bs ← map_option f rest
    pure (b :: bs)

/-- A bounding interface of a cell together with its orientation relative to
the cell (struct `CellFace`). -/
structure CellFace where
  interface : ℕ
  direction : Direction

/-- Geometric data about a cell (struct `GridCell`). -/
structure GridCell where
  vertex_ids : List ℕ
  interfaces : List CellFace
  shape : CellShape
  volume : ℝ
  centre : Vector3
  id : ℕ

/-- GridCell::new: derive the shape from the vertex count, average the
vertex positions into the centre, classify every supplied interface against
that centre, and compute the shape-specific volume. Shape derivation and
direction classification can panic, hence `Option`. -/
def GridCell.new (interfaces : List GridInterface) (vertices : List GridVertex)
    (id : ℕ) : Option GridCell := do
  let shape ← CellShape.from_number_of_vertices vertices.length
  let vertex_ids := vertices.map GridVertex.id
  let centre := compute_centre_of_vertices vertices
  let cell_faces ← map_option (fun iface => do
    let direction ← iface.compute_direction centre
    pure (CellFace.mk iface.id direction)) interfaces
  let volume ← shape.volume vertices
  pure ⟨vertex_ids, cell_faces, shape, volume, centre, id⟩

/-! ## grid/src/su2.rs -/

/-- A whitespace-separated numeric token of an SU2 text file, as written:
`nat` is an integer token (element-type codes and vertex ids), `real` a
floating-point token (coordinates). Parsing an integer token as a float
succeeds with the same value; parsing a genuine float token as `usize`
fails. -/
inductive Tok where
  | nat (n : ℕ)
  | real (r : ℝ)

/-- Reading a token as an f64 coordinate (parse::<Real> on its text). -/
def Tok.toReal : Tok → ℝ
  | Tok.nat n => (n : ℝ)
  | Tok.real r => r

/-- Reading a token as a usize (parse::<usize> on its text). -/
def Tok.toNat : Tok → Option ℕ
  | Tok.nat n => some n
  | Tok.real _ => none

/-- One trimmed line of an SU2 text file. Section headers carry their parsed
key-value payload; `nums` is a data line of numeric tokens (an empty `nums`
models a blank or otherwise token-free line). -/
inductive Su2Line where
  | ndime (d : ℕ)
  | npoin (n : ℕ)
  | nelem (n : ℕ)
  | nmark (n : ℕ)
  | markerTag (tag : String)
  | markerElems (n : ℕ)
  | nums (toks : List Tok)

/-- The mutable state accumulated by read_su2's line loop. The source keeps
`cell_connectivity` and `cell_vertices` as two parallel vectors pushed in
lockstep; they are paired here. -/
structure Su2Data where
  dimensions : Option ℕ
  n_cells : Option ℕ
  vertices : List GridVertex
  cells : List (List (List ℕ) × List ℕ)
  boundary_faces : List (String × List (List ℕ))

/-- The empty pre-parse state. -/
def Su2Data.init : Su2Data := ⟨none, none, [], [], []⟩

/-- The NPOIN loop body: read `count` consecutive coordinate lines, parsing
the first `dim` tokens of each (parse_vector_from_line_with_dim followed by
Vector3::new_from_vec), numbering the vertices from 0 in file order. A
missing line, a non-data line or an empty line panics. -/
def read_points (dim : ℕ) : ℕ → ℕ → List Su2Line → Option (List GridVertex)
  | 0, _, _ => some []
  | count + 1, point_i, Su2Line.nums toks :: rest => do
    let coords := (toks.map Tok.toReal).take dim
    let vertex_pos ← Vector3.new_from_vec coords
    let more ← read_points dim count (point_i + 1) rest
    pure (GridVertex.new vertex_pos point_i :: more)
  | _ + 1, _, _ => none

/-- The NELEM loop body: each element line is an element-type code followed
by vertex ids (all usize tokens); the shape's edge pattern plus the id list
are collected per cell. -/
def read_elems : ℕ → List Su2Line → Option (List (List (List ℕ) × List ℕ))
  | 0, _ => some []
  | count + 1, Su2Line.nums toks :: rest => do
    let cell_definition ← map_option Tok.toNat toks
    match cell_definition with
    | [] => none
    | elem_type :: this_cell_vertices => do
      let shape ← CellShape.from_su2_element_type elem_type
      let conn ← shape.interfaces this_cell_vertices
      let more ← read_elems count rest
      pure ((conn, this_cell_vertices) :: more)
  | _ + 1, _ => none

/-- The boundary-face lines of one marker group: each is a list of usize
tokens (element-type code first, untouched here). -/
def read_face_lines : ℕ → List Su2Line → Option (List (List ℕ))
  | 0, _ => some []
  | count + 1, Su2Line.nums toks :: rest => do
    let face ← map_option Tok.toNat toks
    let more ← read_face_lines count rest
    pure (face :: more)
  | _ + 1, _ => none

/-- read_boundary: a MARKER_TAG line, a MARKER_ELEMS line, then that many
face lines; returns the parsed group and the number of lines consumed. -/
def read_boundary (lines : List Su2Line) : Option ((String × List (List ℕ)) × ℕ) :=
  match lines with
  | Su2Line.markerTag tag :: Su2Line.markerElems number_interfaces :: rest => do
    let faces ← read_face_lines number_interfaces rest
    pure ((tag, faces), 2 + number_interfaces)
  | _ => none

/-- The NMARK loop body: read `count` marker groups in sequence, also
returning the total number of lines consumed. -/
def read_boundaries : ℕ → List Su2Line → Option (List (String × List (List ℕ)) × ℕ)
  | 0, _ => some ([], 0)
  | count + 1, lines => do
    let (group, consumed) ← read_boundary lines
    let (groups, consumed_rest) ← read_boundaries count (lines.drop consumed)
    pure (group :: groups, consumed + consumed_rest)

/-- Insertion into an association list standing in for HashMap::insert:
replace the value of an existing key, append a fresh key. -/
def assocInsert {β : Type} : List (String × β) → String → β → List (String × β)
  | [], key, val => [(key, val)]
  | (key1, val1) :: rest, key, val =>
    if key1 = key then (key1, val) :: rest
    else (key1, val1) :: assocInsert rest key val

/-- The line loop of read_su2: dispatch on the recognized section headers,
consume each section's declared number of lines, and silently skip anything
else. -/
def parse_su2_lines : List Su2Line → Su2Data → Option Su2Data
  | [], st => some st
  | line :: rest, st =>
    match line with
    | Su2Line.ndime d => parse_su2_lines rest { st with dimensions := some d }
    | Su2Line.npoin n_points => do
      let dim ← st.dimensions
      let pts ← read_points dim n_points 0 rest
      parse_su2_lines (rest.drop n_points) { st with vertices := st.vertices ++ pts }
    | Su2Line.nelem n_elem => do
      let cells ← read_elems n_elem rest
      parse_su2_lines (rest.drop n_elem)
        { st with n_cells := some n_elem, cells := st.cells ++ cells }
    | Su2Line.nmark n_boundaries => do
      let (groups, consumed) ← read_boundaries n_boundaries rest
      parse_su2_lines (rest.drop consumed)
        { st with boundary_faces :=
            groups.foldl (fun m g => assocInsert m g.1 g.2) st.boundary_faces }
    | _ => parse_su2_lines rest st
termination_by lines _ => lines.length
decreasing_by
  all_goals simp_wf
  all_goals omega

/-- Free function add_interface in su2.rs: scan the interfaces built so far
for one containing the candidate's vertices (equal_to_vertices); return its
id if found, otherwise construct the interface with id = current length and
append it. -/
def add_interface (interfaces : List GridInterface) (vertices : List GridVertex) :
    Option (ℕ × List GridInterface) :=
  match interfaces.find? (fun iface => iface.equal_to_vertices vertices) with
  | some iface => some (iface.id, interfaces)
  | none => do
    let iface ← GridInterface.new_from_vertices vertices interfaces.length
    pure (interfaces.length, interfaces ++ [iface])

/-- Free function find_interface_with_vertices in su2.rs: id of the first
interface containing all the queried vertices; reaching the end of the list
panics. -/
def find_interface_with_vertices (interfaces : List GridInterface)
    (vertices : List GridVertex) : Option ℕ :=
  match interfaces.find? (fun iface => iface.equal_to_vertices vertices) with
  | some iface => some iface.id
  | none => none

/-- The per-cell interface resolution of read_su2: fetch each edge's
vertices by index (panic on out of range) and push the edge through
add_interface. -/
def resolve_cell_interfaces (vertices : List GridVertex) :
    List (List ℕ) → List GridInterface → Option (List ℕ × List GridInterface)
  | [], interfaces => some ([], interfaces)
  | edge :: more, interfaces => do
    let interface_vertices ← map_option (fun vertex_id => vertices.get? vertex_id) edge
    let (interface_id, interfaces1) ← add_interface interfaces interface_vertices
    let (ids, interfaces2) ← resolve_cell_interfaces vertices more interfaces1
    pure (interface_id :: ids, interfaces2)

/-- The cell-construction loop of read_su2: for the i-th parsed element,
resolve its edges through add_interface, fetch the resolved interfaces and
the cell's vertices, and build the GridCell with id i. -/
def build_cells (vertices : List GridVertex) :
    List (List (List ℕ) × List ℕ) → ℕ → List GridInterface → List GridCell →
    Option (List GridInterface × List GridCell)
  | [], _, interfaces, cells => some (interfaces, cells)
  | (conn, cell_vertex_ids) :: more, i, interfaces, cells => do
    let (this_cell_interface_ids, interfaces1) ←
      resolve_cell_interfaces vertices conn interfaces
    let this_cell_interfaces ←
      map_option (fun id => interfaces1.get? id) this_cell_interface_ids
    let this_cell_vertices ←
      map_option (fun id => vertices.get? id) cell_vertex_ids
    let cell ← GridCell.new this_cell_interfaces this_cell_vertices i
    build_cells vertices more (i + 1) interfaces1 (cells ++ [cell])

/-- The boundary-resolution loop of read_su2: drop the element-type token of
every boundary face line, fetch the named vertices, and look the face up
among the built interfaces (find_interface_with_vertices; not finding it
panics). The resolved groups are inserted into the boundaries map in order. -/
def resolve_boundaries (vertices : List GridVertex)
    (interfaces : List GridInterface) :
    List (String × List (List ℕ)) → List (String × List ℕ) →
    Option (List (String × List ℕ))
  | [], boundaries => some boundaries
  | (tag, faces_on_boundary) :: more, boundaries => do
    let interfaces_on_boundary ← map_option (fun face => do
      let vertices_in_face ← map_option (fun id => vertices.get? id) (face.drop 1)
      find_interface_with_vertices interfaces vertices_in_face) faces_on_boundary
    resolve_boundaries vertices interfaces more
      (assocInsert boundaries tag interfaces_on_boundary)

/-! ## grid/src/block.rs -/

/-- An unstructured grid block (struct `GridBlock`). -/
structure GridBlock where
  vertices : List GridVertex
  interfaces : List GridInterface
  cells : List GridCell
  boundaries : List (String × List ℕ)
  dimensions : ℕ
  id : ℕ

/-- GridBlock::new. The source also lets every cell note itself on its
interfaces (attach_cell_to_interfaces); that back-pointer bookkeeping
touches no field modelled here. -/
def GridBlock.new (vertices : List GridVertex) (interfaces : List GridInterface)
    (cells : List GridCell) (boundaries : List (String × List ℕ))
    (dimensions : ℕ) (id : ℕ) : GridBlock :=
  ⟨vertices, interfaces, cells, boundaries, dimensions, id⟩

/-- read_su2: run the line loop, then assemble interfaces, cells and
boundaries; a missing NELEM (`n_cells.expect`) or missing NDIME
(`dimensions.unwrap`) panics. -/
def read_su2 (lines : List Su2Line) (id : ℕ) : Option GridBlock := do
  let st ← parse_su2_lines lines Su2Data.init
  let _ ← st.n_cells
  let (interfaces, cells) ← build_cells st.vertices st.cells 0 [] []
  let boundaries ← resolve_boundaries st.vertices interfaces st.boundary_faces []
  let dim ← st.dimensions
  pure (GridBlock.new st.vertices interfaces cells boundaries dim id)

/-- write_su2: the mirror serialization of a block; two coordinates per
vertex line unless the block is 3-dimensional, element lines as shape code
plus vertex ids, then one marker section per boundary tag listing each
boundary interface's shape code and vertex ids (an out-of-range boundary
interface id would panic in Rust; `List.getD` keeps the writer total and the
round-trip theorem's hypotheses rule the case out). -/
def write_su2 (block : GridBlock) : List Su2Line :=
  [Su2Line.ndime block.dimensions, Su2Line.npoin block.vertices.length]
  ++ block.vertices.map (fun vertex =>
      if block.dimensions = 3 then
        Su2Line.nums [Tok.real vertex.pos.x, Tok.real vertex.pos.y, Tok.real vertex.pos.z]
      else
        Su2Line.nums [Tok.real vertex.pos.x, Tok.real vertex.pos.y])
  ++ [Su2Line.nelem block.cells.length]
  ++ block.cells.map (fun cell =>
      Su2Line.nums (Tok.nat cell.shape.to_su2_element_type
        :: cell.vertex_ids.map Tok.nat))
  ++ [Su2Line.nmark block.boundaries.length]
  ++ (block.boundaries.map (fun bndry =>
      Su2Line.markerTag bndry.1
      :: Su2Line.markerElems bndry.2.length
      :: bndry.2.map (fun interface =>
          Su2Line.nums (Tok.nat
              (block.interfaces.getD interface default).shape.to_su2_element_type
            :: (block.interfaces.getD interface default).vertex_ids.map Tok.nat)))).flatten

/-- For handling errors associated with file types we don't know how to read
(struct `UnknownFileType`): the offending file name and its extension, if
any. -/
structure UnknownFileType where
  name : String
  ext : Option String
deriving DecidableEq

/-- Grid file types (enum `GridFileType`). -/
inductive GridFileType where
  | Native
  | Su2
deriving DecidableEq

/-- Split a character list at every dot (the segments of a file name). The
result is always non-empty. -/
def split_dots : List Char → List (List Char)
  | [] => [[]]
  | c :: rest =>
    match split_dots rest with
    | [] => []
    | seg :: segs =>
      if c = Char.ofNat 46 then [] :: seg :: segs
      else (c :: seg) :: segs

/-- Rust Path::extension on a plain file name: the portion after the last
dot, none when there is no dot or when the only dot is the leading one of a
hidden file. -/
def rust_extension (name : String) : Option String :=
  match split_dots name.data with
  | [] => none
  | [_] => none
  | first :: rest =>
    if first.isEmpty ∧ rest.length = 1 then none
    else rest.getLast?.map (fun cs => String.mk cs)

/-- GridFileType::from_file_name: su2 and grid are the recognized
extensions; anything else is an UnknownFileType error carrying the file name
and the extension, if one was present (the source matches on the extension
string; the match is rendered as the equivalent equality chain). -/
def GridFileType.from_file_name (file_path : String) :
    Except UnknownFileType GridFileType :=
  match rust_extension file_path with
  | some ext =>
    if ext = "su2" then Except.ok GridFileType.Su2
    else if ext = "grid" then Except.ok GridFileType.Native
    else Except.error ⟨file_path, some ext⟩
  | none => Except.error ⟨file_path, none⟩

/-- GridFileType::extension. -/
def GridFileType.extension : GridFileType → String
  | GridFileType.Native => "grid"
  | GridFileType.Su2 => "su2"

/-- A grid file handed to the loader: its name (driving format recognition)
and its content (the trimmed lines). -/
structure GridFile where
  name : String
  content : List Su2Line

/-- The errors surfaced by BlockCollection::add_block: an unrecognized file
type, or an abort inside the format reader. -/
inductive GridError where
  | unknownFileType (err : UnknownFileType)
  | parseFailure

/-- A collection of blocks (struct `BlockCollection`). -/
structure BlockCollection where
  blocks : List GridBlock

/-- BlockCollection::new. -/
def BlockCollection.new : BlockCollection := ⟨[]⟩

/-- BlockCollection::add_block: recognize the file type, read the file with
the new block's id set to the current number of blocks, and append the
block; on error the collection is left untouched and the error goes to the
caller. -/
def BlockCollection.add_block (c : BlockCollection) (file : GridFile) :
    Except GridError BlockCollection :=
  match GridFileType.from_file_name file.name with
  | Except.error err => Except.error (GridError.unknownFileType err)
  | Except.ok _ =>
    match read_su2 file.content c.blocks.length with
    | none => Except.error GridError.parseFailure
    | some block => Except.ok ⟨c.blocks ++ [block]⟩

/-- BlockCollection::get_block: indexed lookup, panics out of range. -/
def BlockCollection.get_block (c : BlockCollection) (id : ℕ) : Option GridBlock :=
  c.blocks.get? id

/-- The block collections reachable through the public loader interface:
start from BlockCollection::new and repeatedly call add_block, keeping the
old collection whenever a call fails. -/
inductive Reachable : BlockCollection → Prop where
  | new : Reachable BlockCollection.new
  | add_ok {c : BlockCollection} {file : GridFile} {c1 : BlockCollection} :
      Reachable c → c.add_block file = Except.ok c1 → Reachable c1

/-! ## Verification infrastructure and concrete fixtures -/

/-- The bookkeeping invariant of the interface list grown by add_interface
during a read: every interface sits at the index equal to its id, no
interface's vertex-id list is contained in an earlier one's (this is what
the dedup scan guarantees), and every interface was built by the two-vertex
constructor from vertices fetched out of the vertex list. -/
def InterfaceListInv (vertices : List GridVertex) (ifs : List GridInterface) : Prop :=
  (∀ j iface, ifs.get? j = some iface → iface.id = j) ∧
  (∀ j i ifj ifi, ifs.get? j = some ifj → ifs.get? i = some ifi → i < j →
    ¬ ∀ x ∈ ifj.vertex_ids, x ∈ ifi.vertex_ids) ∧
  (∀ iface ∈ ifs, ∃ u0 u1 i0 i1,
    vertices.get? i0 = some u0 ∧ vertices.get? i1 = some u1 ∧
    iface = GridInterface.new_line u0 u1 iface.id)

/-- The four corners of the unit square, ids 0 to 3 counterclockwise
(mirroring the repo's own square test fixture). -/
def square_vertices : List GridVertex :=
  [⟨⟨0, 0, 0⟩, 0⟩, ⟨⟨1, 0, 0⟩, 1⟩, ⟨⟨1, 1, 0⟩, 2⟩, ⟨⟨0, 1, 0⟩, 3⟩]

/-- An SU2 file holding one quadrilateral cell over the unit square with a
single boundary marker on its bottom edge. -/
def square_lines : List Su2Line :=
  [Su2Line.ndime 2, Su2Line.npoin 4,
   Su2Line.nums [Tok.real 0, Tok.real 0],
   Su2Line.nums [Tok.real 1, Tok.real 0],
   Su2Line.nums [Tok.real 1, Tok.real 1],
   Su2Line.nums [Tok.real 0, Tok.real 1],
   Su2Line.nelem 1,
   Su2Line.nums [Tok.nat 9, Tok.nat 0, Tok.nat 1, Tok.nat 2, Tok.nat 3],
   Su2Line.nmark 1,
   Su2Line.markerTag "wall",
   Su2Line.markerElems 1,
   Su2Line.nums [Tok.nat 3, Tok.nat 0, Tok.nat 1]]

/-- The four deduplicated edges of the unit square, in first-declaration
order. -/
def square_interfaces : List GridInterface :=
  [GridInterface.new_line ⟨⟨0, 0, 0⟩, 0⟩ ⟨⟨1, 0, 0⟩, 1⟩ 0,
   GridInterface.new_line ⟨⟨1, 0, 0⟩, 1⟩ ⟨⟨1, 1, 0⟩, 2⟩ 1,
   GridInterface.new_line ⟨⟨1, 1, 0⟩, 2⟩ ⟨⟨0, 1, 0⟩, 3⟩ 2,
   GridInterface.new_line ⟨⟨0, 1, 0⟩, 3⟩ ⟨⟨0, 0, 0⟩, 0⟩ 3]

/-- The single quadrilateral cell of the unit-square fixture; every edge
normal points away from the centroid, so every face is Outwards. -/
def square_cell : GridCell :=
  ⟨[0, 1, 2, 3],
   [⟨0, Direction.Outwards⟩, ⟨1, Direction.Outwards⟩,
    ⟨2, Direction.Outwards⟩, ⟨3, Direction.Outwards⟩],
   CellShape.Quadrilateral,
   (quad_area square_vertices).getD 0,
   compute_centre_of_vertices square_vertices,
   0⟩

/-- The block the reader produces from the unit-square fixture. -/
def square_block : GridBlock :=
  ⟨square_vertices, square_interfaces, [square_cell], [("wall", [0])], 2, 0⟩

/-! ## Helper lemmas -/

/-- Sorting is determined by the multiset of elements. -/
theorem insertionSort_eq_of_perm (l l2 : List ℕ) (h : l.Perm l2) :
    l.insertionSort (· ≤ ·) = l2.insertionSort (· ≤ ·) :=
  List.eq_of_perm_of_sorted
    ((List.perm_insertionSort _ l).trans (h.trans (List.perm_insertionSort _ l2).symm))
    (List.sorted_insertionSort _ l) (List.sorted_insertionSort _ l2)

/-- The canonical key ignores the order of the vertex ids. -/
theorem hash_perm (l l2 : List ℕ) (h : l.Perm l2) : hash l = hash l2 := by
  unfold hash
  rw [insertionSort_eq_of_perm l l2 h]

/-- Looking a key up behind a prefix that does not contain it. -/
theorem lookup_append_of_none {β : Type} (l m : List (ℕ × β)) (k : ℕ)
    (h : l.lookup k = none) : (l ++ m).lookup k = m.lookup k := by
  induction l with
  | nil => rfl
  | cons p rest ih =>
    rw [List.cons_append]
    rw [List.lookup] at h ⊢
    rcases hbeq : (k == p.1) with _ | _
    · rw [hbeq] at h
      simp only at h ⊢
      exact ih h
    · rw [hbeq] at h
      simp at h

/-- new_from_vertices on exactly two vertices is the line constructor. -/
theorem GridInterface.new_from_vertices_pair (v0 v1 : GridVertex) (id : ℕ) :
    GridInterface.new_from_vertices [v0, v1] id = some (GridInterface.new_line v0 v1 id) :=
  rfl

/-- The id recorded by the line constructor. -/
theorem GridInterface.new_line_id (v0 v1 : GridVertex) (id : ℕ) :
    (GridInterface.new_line v0 v1 id).id = id :=
  rfl

/-- The vertex ids recorded by the line constructor. -/
theorem GridInterface.new_line_vertex_ids (v0 v1 : GridVertex) (id : ℕ) :
    (GridInterface.new_line v0 v1 id).vertex_ids = [v0.id, v1.id] :=
  rfl

/-- The containment reading of equal_to_vertices. -/
theorem equal_to_vertices_eq_true_iff (iface : GridInterface)
    (other : List GridVertex) :
    iface.equal_to_vertices other = true ↔
      ∀ v ∈ other, v.id ∈ iface.vertex_ids := by
  simp [GridInterface.equal_to_vertices, List.all_eq_true, List.any_eq_true,
    beq_iff_eq]

/-- map_option preserves the length. -/
theorem map_option_length {A B : Type} (f : A → Option B) (l : List A)
    (l2 : List B) (h : map_option f l = some l2) : l2.length = l.length := by
  induction l generalizing l2 with
  | nil =>
    rw [map_option] at h
    simp only [Option.some.injEq] at h
    subst h
    rfl
  | cons a rest ih =>
    rw [map_option] at h
    simp only [Option.bind_eq_bind] at h
    obtain ⟨b, hb, h⟩ := Option.bind_eq_some.mp h
    obtain ⟨bs, hbs, h⟩ := Option.bind_eq_some.mp h
    simp only [pure, Option.some.injEq] at h
    rw [← h]
    simp [ih bs hbs]

/-- map_option acts pointwise. -/
theorem map_option_get {A B : Type} (f : A → Option B) (l : List A)
    (l2 : List B) (h : map_option f l = some l2) :
    ∀ i (hi : i < l.length) (hi2 : i < l2.length),
      f (l.get ⟨i, hi⟩) = some (l2.get ⟨i, hi2⟩) := by
  induction l generalizing l2 with
  | nil => intro i hi; exact absurd hi (by simp)
  | cons a rest ih =>
    rw [map_option] at h
    simp only [Option.bind_eq_bind] at h
    obtain ⟨b, hb, h⟩ := Option.bind_eq_some.mp h
    obtain ⟨bs, hbs, h⟩ := Option.bind_eq_some.mp h
    simp only [pure, Option.some.injEq] at h
    subst h
    intro i hi hi2
    match i with
    | 0 => exact hb
    | k + 1 =>
      exact ih bs hbs k (by simpa using hi) (by simpa using hi2)

/-- Every output of map_option comes from some input. -/
theorem map_option_mem {A B : Type} (f : A → Option B) (l : List A)
    (l2 : List B) (h : map_option f l = some l2) :
    ∀ b ∈ l2, ∃ a ∈ l, f a = some b := by
  induction l generalizing l2 with
  | nil =>
    rw [map_option] at h
    simp only [Option.some.injEq] at h
    rw [← h]
    simp
  | cons a rest ih =>
    rw [map_option] at h
    simp only [Option.bind_eq_bind] at h
    obtain ⟨b, hb, h⟩ := Option.bind_eq_some.mp h
    obtain ⟨bs, hbs, h⟩ := Option.bind_eq_some.mp h
    simp only [pure, Option.some.injEq] at h
    subst h
    intro x hx
    rcases List.mem_cons.mp hx with hx | hx
    · exact ⟨a, List.mem_cons_self a rest, hx ▸ hb⟩
    · obtain ⟨a2, ha2, hfa2⟩ := ih bs hbs x hx
      exact ⟨a2, List.mem_cons_of_mem a ha2, hfa2⟩

/-- map_option succeeds on pointwise-successful input. -/
theorem map_option_of_pointwise {A B : Type} (f : A → Option B) (g : A → B)
    (l : List A) (h : ∀ a ∈ l, f a = some (g a)) :
    map_option f l = some (l.map g) := by
  induction l with
  | nil => rfl
  | cons a rest ih =>
    rw [map_option, h a (List.mem_cons_self a rest),
      ih (fun x hx => h x (List.mem_cons_of_mem a hx))]
    rfl

/-- Reading integer tokens back from written integers. -/
theorem map_option_toNat_natToks (l : List ℕ) :
    map_option Tok.toNat (l.map Tok.nat) = some l := by
  induction l with
  | nil => rfl
  | cons a rest ih =>
    rw [List.map_cons, map_option]
    rw [show Tok.toNat (Tok.nat a) = some a from rfl, ih]
    rfl

/-- Fetching a list of indices out of a densely id-numbered vertex list
returns vertices carrying exactly those indices as ids. -/
theorem map_option_fetch_ids (vertices : List GridVertex)
    (hv : ∀ i (h : i < vertices.length), (vertices.get ⟨i, h⟩).id = i)
    (ids : List ℕ) (vs : List GridVertex)
    (h : map_option (fun id => vertices.get? id) ids = some vs) :
    vs.map GridVertex.id = ids := by
  induction ids generalizing vs with
  | nil =>
    rw [map_option] at h
    simp only [Option.some.injEq] at h
    rw [← h]
    rfl
  | cons a rest ih =>
    rw [map_option] at h
    simp only [Option.bind_eq_bind] at h
    obtain ⟨b, hb, h⟩ := Option.bind_eq_some.mp h
    obtain ⟨bs, hbs, h⟩ := Option.bind_eq_some.mp h
    simp only [pure, Option.some.injEq] at h
    subst h
    obtain ⟨hlt, hget⟩ := List.get?_eq_some.mp hb
    rw [List.map_cons, ih bs hbs]
    have : b.id = a := by rw [← hget]; exact hv a hlt
    rw [this]

/-- The first find? hit at a known position. -/
theorem find?_at_index {A : Type} (l : List A) (p : A → Bool) (i : ℕ)
    (hi : i < l.length)
    (hbefore : ∀ j (hj : j < i), p (l.get ⟨j, Nat.lt_trans hj hi⟩) = false)
    (hat : p (l.get ⟨i, hi⟩) = true) :
    l.find? p = some (l.get ⟨i, hi⟩) := by
  induction l generalizing i with
  | nil => exact absurd hi (by simp)
  | cons a rest ih =>
    match i with
    | 0 =>
      exact List.find?_cons_of_pos rest hat
    | k + 1 =>
      have h0 : p a = false := hbefore 0 (Nat.succ_pos k)
      rw [List.find?_cons_of_neg rest (by simp [h0])]
      exact ih k (by simpa using hi)
        (fun j hj => hbefore (j + 1) (by omega)) hat

/-- Fields of a successfully constructed cell. -/
theorem GridCell.new_spec (interfaces : List GridInterface)
    (vertices : List GridVertex) (id : ℕ) (cell : GridCell)
    (h : GridCell.new interfaces vertices id = some cell) :
    cell.vertex_ids = vertices.map GridVertex.id ∧
    CellShape.from_number_of_vertices vertices.length = some cell.shape ∧
    cell.interfaces.length = interfaces.length ∧
    cell.centre = compute_centre_of_vertices vertices ∧
    cell.id = id := by
  rw [GridCell.new] at h
  obtain ⟨shape, hshape, h⟩ := Option.bind_eq_some.mp h
  obtain ⟨cell_faces, hfaces, h⟩ := Option.bind_eq_some.mp h
  obtain ⟨vol, hvol, h⟩ := Option.bind_eq_some.mp h
  simp only [pure, Option.some.injEq] at h
  subst h
  exact ⟨rfl, hshape, map_option_length _ _ _ hfaces, rfl, rfl⟩

/-- Outcome analysis of add_interface: either the scan finds a containing
interface and the list is unchanged, or a fresh line interface with id equal
to the current length is appended. -/
theorem add_interface_spec (interfaces : List GridInterface)
    (qverts : List GridVertex) (out : ℕ × List GridInterface)
    (h : add_interface interfaces qverts = some out) :
    (∃ iface, interfaces.find? (fun ifc => ifc.equal_to_vertices qverts) = some iface ∧
      out = (iface.id, interfaces)) ∨
    (interfaces.find? (fun ifc => ifc.equal_to_vertices qverts) = none ∧
      ∃ v0 v1, qverts = [v0, v1] ∧
        out = (interfaces.length,
          interfaces ++ [GridInterface.new_line v0 v1 interfaces.length])) := by
  rw [add_interface] at h
  rcases hfind : interfaces.find? (fun ifc => ifc.equal_to_vertices qverts)
    with _ | iface
  · rw [hfind] at h
    simp only [Option.bind_eq_bind] at h
    obtain ⟨iface, hnew, h⟩ := Option.bind_eq_some.mp h
    refine Or.inr ⟨hfind, ?_⟩
    match qverts, hnew with
    | [v0, v1], hnew =>
      rw [GridInterface.new_from_vertices_pair] at hnew
      simp only [Option.some.injEq] at hnew
      subst hnew
      injection h with h2
      exact ⟨v0, v1, rfl, h2.symm⟩
  · rw [hfind] at h
    simp only [Option.some.injEq] at h
    exact Or.inl ⟨iface, hfind, h.symm⟩

/-- The id returned by a successful boundary lookup belongs to a stored
interface. -/
theorem find_interface_with_vertices_mem (interfaces : List GridInterface)
    (qverts : List GridVertex) (i : ℕ)
    (h : find_interface_with_vertices interfaces qverts = some i) :
    ∃ iface ∈ interfaces, iface.id = i := by
  rw [find_interface_with_vertices] at h
  rcases hfind : interfaces.find? (fun ifc => ifc.equal_to_vertices qverts)
    with _ | iface
  · rw [hfind] at h
    exact absurd h (by simp)
  · rw [hfind] at h
    simp only [Option.some.injEq] at h
    exact ⟨iface, List.mem_of_find?_eq_some hfind, h⟩

/-- Resolving one cell's edges preserves the interface-list invariant and
produces one interface id per edge. -/
theorem resolve_cell_interfaces_spec (vertices : List GridVertex) :
    ∀ (conn : List (List ℕ)) (ifs : List GridInterface)
      (out : List ℕ × List GridInterface),
      resolve_cell_interfaces vertices conn ifs = some out →
      InterfaceListInv vertices ifs →
      InterfaceListInv vertices out.2 ∧ out.1.length = conn.length := by
  intro conn
  induction conn with
  | nil =>
    intro ifs out h hinv
    rw [resolve_cell_interfaces] at h
    simp only [Option.some.injEq] at h
    rw [← h]
    exact ⟨hinv, rfl⟩
  | cons edge more ih =>
    intro ifs out h hinv
    rw [resolve_cell_interfaces] at h
    simp only [Option.bind_eq_bind] at h
    obtain ⟨qverts, hq, h⟩ := Option.bind_eq_some.mp h
    obtain ⟨pair1, hadd, h⟩ := Option.bind_eq_some.mp h
    obtain ⟨iid, ifs1⟩ := pair1
    obtain ⟨pair2, hrec, h⟩ := Option.bind_eq_some.mp h
    obtain ⟨ids, ifs2⟩ := pair2
    injection h with h
    subst h
    have hinv1 : InterfaceListInv vertices ifs1 := by
      rcases add_interface_spec ifs qverts (iid, ifs1) hadd with
        ⟨iface, hfind, heq⟩ | ⟨hfind, v0, v1, hqv, heq⟩
      · injection heq with h1 h2
        rw [h2]
        exact hinv
      · injection heq with h1 h2
        subst hqv
        obtain ⟨hI1, hI2, hI3⟩ := hinv
        rw [h2]
        refine ⟨?_, ?_, ?_⟩
        · intro j iface hj
          by_cases hjlen : j < ifs.length
          · rw [List.get?_append hjlen] at hj
            exact hI1 j iface hj
          · have : j = ifs.length := by
              by_contra hne
              have : ifs.length + 1 ≤ j := by omega
              rw [List.get?_eq_none.mpr (by simp; omega)] at hj
              exact absurd hj (by simp)
            subst this
            rw [List.get?_append_right (le_refl _)] at hj
            simp only [Nat.sub_self, List.get?] at hj
            injection hj with hj
            rw [← hj]
            rfl
        · intro j i ifj ifi hj hi hij
          have hilen : i < ifs.length := by
            rcases List.get?_eq_some.mp hi with ⟨hlt, _⟩
            simp only [List.length_append, List.length_cons, List.length_nil] at hlt
            rcases List.get?_eq_some.mp hj with ⟨hltj, _⟩
            simp only [List.length_append, List.length_cons, List.length_nil] at hltj
            omega
          rw [List.get?_append hilen] at hi
          by_cases hjlen : j < ifs.length
          · rw [List.get?_append hjlen] at hj
            exact hI2 j i ifj ifi hj hi hij
          · have hjeq : j = ifs.length := by
              rcases List.get?_eq_some.mp hj with ⟨hltj, _⟩
              simp only [List.length_append, List.length_cons, List.length_nil] at hltj
              omega
            subst hjeq
            rw [List.get?_append_right (le_refl _)] at hj
            simp only [Nat.sub_self, List.get?] at hj
            injection hj with hj
            subst hj
            rw [GridInterface.new_line_vertex_ids]
            intro hsub
            have hfalse := List.find?_eq_none.mp hfind ifi
              (List.get?_mem hi)
            have : ifi.equal_to_vertices [v0, v1] = true := by
              rw [equal_to_vertices_eq_true_iff]
              intro v hv
              rcases List.mem_cons.mp hv with hv | hv
              · subst hv
                exact hsub v.id (by simp)
              · rw [List.mem_singleton] at hv
                subst hv
                exact hsub v.id (by simp)
            simp [this] at hfalse
        · intro iface hmem
          rcases List.mem_append.mp hmem with hmem | hmem
          · exact hI3 iface hmem
          · rw [List.mem_singleton] at hmem
            subst hmem
            obtain ⟨a0, ha0, hf0⟩ := map_option_mem _ _ _ hq v0 (by simp)
            obtain ⟨a1, ha1, hf1⟩ := map_option_mem _ _ _ hq v1 (by simp)
            exact ⟨v0, v1, a0, a1, hf0, hf1, rfl⟩
    have hmore := ih ifs1 (ids, ifs2) hrec hinv1
    exact ⟨hmore.1, by simp [hmore.2]⟩

/-- The cell-construction loop preserves the interface-list invariant and
builds one cell per parsed element, recording the fetched vertices' ids, the
count-derived shape, one face per connectivity edge, and sequential ids. -/
theorem build_cells_spec (vertices : List GridVertex) :
    ∀ (entries : List (List (List ℕ) × List ℕ)) (i0 : ℕ)
      (acc_if : List GridInterface) (acc_cells : List GridCell)
      (out : List GridInterface × List GridCell),
      build_cells vertices entries i0 acc_if acc_cells = some out →
      InterfaceListInv vertices acc_if →
      InterfaceListInv vertices out.1 ∧
      ∃ newcells, out.2 = acc_cells ++ newcells ∧
        newcells.length = entries.length ∧
        ∀ k entry cell, entries.get? k = some entry → newcells.get? k = some cell →
          ∃ fetched,
            map_option (fun id => vertices.get? id) entry.2 = some fetched ∧
            cell.vertex_ids = fetched.map GridVertex.id ∧
            CellShape.from_number_of_vertices fetched.length = some cell.shape ∧
            cell.interfaces.length = entry.1.length ∧
            cell.id = i0 + k := by
  intro entries
  induction entries with
  | nil =>
    intro i0 acc_if acc_cells out h hinv
    rw [build_cells] at h
    simp only [Option.some.injEq] at h
    rw [← h]
    exact ⟨hinv, [], by simp, rfl, fun k entry cell he => by simp at he⟩
  | cons entry more ih =>
    intro i0 acc_if acc_cells out h hinv
    obtain ⟨conn, cvids⟩ := entry
    rw [build_cells] at h
    simp only [Option.bind_eq_bind] at h
    obtain ⟨pair1, hresolve, h⟩ := Option.bind_eq_some.mp h
    obtain ⟨this_ids, ifs1⟩ := pair1
    obtain ⟨this_ifaces, hfetch_if, h⟩ := Option.bind_eq_some.mp h
    obtain ⟨this_verts, hfetch_v, h⟩ := Option.bind_eq_some.mp h
    obtain ⟨cell, hcell, h⟩ := Option.bind_eq_some.mp h
    have hres := resolve_cell_interfaces_spec vertices conn acc_if
      (this_ids, ifs1) hresolve hinv
    have hstep := ih (i0 + 1) ifs1 (acc_cells ++ [cell]) out h hres.1
    obtain ⟨hout_inv, newcells, hcells, hlen, hpoint⟩ := hstep
    refine ⟨hout_inv, cell :: newcells, ?_, by simp [hlen], ?_⟩
    · rw [hcells, List.append_assoc]
      rfl
    · intro k e c he hc
      match k with
      | 0 =>
        simp only [List.get?] at he hc
        injection he with he
        injection hc with hc
        subst he
        subst hc
        obtain ⟨hvids, hshape, hflen, _, hid⟩ :=
          GridCell.new_spec this_ifaces this_verts i0 cell hcell
        refine ⟨this_verts, hfetch_v, hvids, hshape, ?_, by omega⟩
        rw [hflen, map_option_length _ _ _ hfetch_if, hres.2]
      | k + 1 =>
        simp only [List.get?] at he hc
        obtain ⟨fetched, h1, h2, h3, h4, h5⟩ := hpoint k e c he hc
        exact ⟨fetched, h1, h2, h3, h4, by omega⟩

/-- Decomposition of a successful read into its stages. -/
theorem read_su2_spec (lines : List Su2Line) (id : ℕ) (B : GridBlock)
    (h : read_su2 lines id = some B) :
    ∃ st, parse_su2_lines lines Su2Data.init = some st ∧
      ∃ nc, st.n_cells = some nc ∧
      ∃ ifc cls, build_cells st.vertices st.cells 0 [] [] = some (ifc, cls) ∧
      ∃ bnd, resolve_boundaries st.vertices ifc st.boundary_faces [] = some bnd ∧
      ∃ d, st.dimensions = some d ∧
      B = GridBlock.new st.vertices ifc cls bnd d id := by
  rw [read_su2] at h
  simp only [Option.bind_eq_bind] at h
  obtain ⟨st, hst, h⟩ := Option.bind_eq_some.mp h
  obtain ⟨nc, hnc, h⟩ := Option.bind_eq_some.mp h
  obtain ⟨pair, hpair, h⟩ := Option.bind_eq_some.mp h
  obtain ⟨ifc, cls⟩ := pair
  obtain ⟨bnd, hbnd, h⟩ := Option.bind_eq_some.mp h
  obtain ⟨d, hd, h⟩ := Option.bind_eq_some.mp h
  injection h with h
  exact ⟨st, hst, nc, hnc, ifc, cls, hpair, bnd, hbnd, d, hd, h.symm⟩

/-- Every block a read produces carries the id the reader was given. -/
theorem read_su2_id (lines : List Su2Line) (id : ℕ) (B : GridBlock)
    (h : read_su2 lines id = some B) : B.id = id := by
  obtain ⟨st, _, nc, _, ifc, cls, _, bnd, _, d, _, hB⟩ := read_su2_spec lines id B h
  rw [hB]
  rfl

/-- Every element entry the NELEM loop produces pairs a shape's edge pattern
with the element's vertex ids. -/
theorem read_elems_inv : ∀ (n : ℕ) (lines : List Su2Line)
    (out : List (List (List ℕ) × List ℕ)), read_elems n lines = some out →
    ∀ e ∈ out, ∃ shape : CellShape, shape.interfaces e.2 = some e.1 := by
  intro n
  induction n with
  | zero =>
    intro lines out h
    rw [read_elems] at h
    simp only [Option.some.injEq] at h
    rw [← h]
    simp
  | succ count ih =>
    intro lines out h
    match lines with
    | [] => exact Option.noConfusion h
    | Su2Line.ndime d :: rest => exact Option.noConfusion h
    | Su2Line.npoin d :: rest => exact Option.noConfusion h
    | Su2Line.nelem d :: rest => exact Option.noConfusion h
    | Su2Line.nmark d :: rest => exact Option.noConfusion h
    | Su2Line.markerTag t :: rest => exact Option.noConfusion h
    | Su2Line.markerElems d :: rest => exact Option.noConfusion h
    | Su2Line.nums toks :: rest =>
      rw [read_elems] at h
      simp only [Option.bind_eq_bind] at h
      obtain ⟨cell_definition, hdef, h⟩ := Option.bind_eq_some.mp h
      match cell_definition, h with
      | [], h => exact absurd h (by simp)
      | elem_type :: this_cell_vertices, h =>
        obtain ⟨shape, hshape, h⟩ := Option.bind_eq_some.mp h
        obtain ⟨conn, hconn, h⟩ := Option.bind_eq_some.mp h
        obtain ⟨morecells, hmore, h⟩ := Option.bind_eq_some.mp h
        injection h with h
        subst h
        intro e he
        rcases List.mem_cons.mp he with he | he
        · subst he
          exact ⟨shape, hconn⟩
        · exact ih rest morecells hmore e he

/-- assocInsert on a key that is not present appends. -/
theorem assocInsert_fresh {β : Type} (m : List (String × β)) (k : String) (v : β)
    (h : ∀ e ∈ m, e.1 ≠ k) : assocInsert m k v = m ++ [(k, v)] := by
  induction m with
  | nil => rfl
  | cons e rest ih =>
    rw [assocInsert]
    rw [if_neg (h e (List.mem_cons_self e rest))]
    rw [ih (fun x hx => h x (List.mem_cons_of_mem e hx))]
    rfl

/-- Membership after assocInsert. -/
theorem assocInsert_mem {β : Type} (m : List (String × β)) (k : String) (v : β)
    (e : String × β) (h : e ∈ assocInsert m k v) : e ∈ m ∨ e = (k, v) := by
  induction m with
  | nil =>
    rw [assocInsert] at h
    rw [List.mem_singleton] at h
    exact Or.inr h
  | cons e1 rest ih =>
    rw [assocInsert] at h
    by_cases hk : e1.1 = k
    · rw [if_pos hk] at h
      rcases List.mem_cons.mp h with h | h
      · rw [h, ← hk]
        exact Or.inr rfl
      · exact Or.inl (List.mem_cons_of_mem e1 h)
    · rw [if_neg hk] at h
      rcases List.mem_cons.mp h with h | h
      · exact Or.inl (h ▸ List.mem_cons_self e1 rest)
      · rcases ih h with h2 | h2
        · exact Or.inl (List.mem_cons_of_mem e1 h2)
        · exact Or.inr h2

/-- The keys after assocInsert. -/
theorem assocInsert_keys {β : Type} (m : List (String × β)) (k : String) (v : β) :
    (assocInsert m k v).map Prod.fst =
      if k ∈ m.map Prod.fst then m.map Prod.fst else m.map Prod.fst ++ [k] := by
  induction m with
  | nil => simp [assocInsert]
  | cons e rest ih =>
    rw [assocInsert]
    by_cases hk : e.1 = k
    · rw [if_pos hk]
      simp [hk]
    · rw [if_neg hk]
      simp only [List.map_cons, ih]
      by_cases hmem : k ∈ rest.map Prod.fst
      · rw [if_pos hmem, if_pos (by simp [hmem])]
      · rw [if_neg hmem, if_neg (by simp [hmem]; exact fun hc => hk hc.symm)]
        rfl

/-- assocInsert preserves key distinctness. -/
theorem assocInsert_nodup {β : Type} (m : List (String × β)) (k : String) (v : β)
    (h : (m.map Prod.fst).Nodup) : ((assocInsert m k v).map Prod.fst).Nodup := by
  rw [assocInsert_keys]
  by_cases hmem : k ∈ m.map Prod.fst
  · rw [if_pos hmem]
    exact h
  · rw [if_neg hmem]
    simp [List.nodup_append, h, hmem]

/-- Folding assocInsert keeps the keys distinct. -/
theorem foldl_assocInsert_nodup {β : Type} (groups : List (String × β)) :
    ∀ (acc : List (String × β)), (acc.map Prod.fst).Nodup →
      ((groups.foldl (fun m g => assocInsert m g.1 g.2) acc).map Prod.fst).Nodup := by
  induction groups with
  | nil => intro acc h; exact h
  | cons g rest ih =>
    intro acc h
    exact ih (assocInsert acc g.1 g.2) (assocInsert_nodup acc g.1 g.2 h)

/-- Folding assocInsert over fresh, pairwise-distinct keys appends. -/
theorem foldl_assocInsert_fresh {β : Type} (groups : List (String × β)) :
    ∀ (acc : List (String × β)),
      (∀ g ∈ groups, ∀ a ∈ acc, a.1 ≠ g.1) →
      (groups.map Prod.fst).Nodup →
      groups.foldl (fun m g => assocInsert m g.1 g.2) acc = acc ++ groups := by
  induction groups with
  | nil => intro acc _ _; simp
  | cons g rest ih =>
    intro acc hfresh hnodup
    simp only [List.foldl_cons]
    rw [assocInsert_fresh acc g.1 g.2 (fun e he => hfresh g (by simp) e he)]
    rw [ih (acc ++ [g]) ?_ (by simp at hnodup; exact hnodup.2)]
    · simp
    · intro g2 hg2 a ha
      rcases List.mem_append.mp ha with ha | ha
      · exact hfresh g2 (List.mem_cons_of_mem g hg2) a ha
      · rw [List.mem_singleton] at ha
        subst ha
        simp only [List.map_cons, List.nodup_cons] at hnodup
        intro hc
        exact hnodup.1 (hc ▸ List.mem_map_of_mem Prod.fst hg2)

/-- The resolved-boundary invariants: distinct tags stay distinct and every
resolved interface id names a stored interface. -/
theorem resolve_boundaries_spec (vertices : List GridVertex)
    (interfaces : List GridInterface) :
    ∀ (bf : List (String × List (List ℕ))) (acc out : List (String × List ℕ)),
      resolve_boundaries vertices interfaces bf acc = some out →
      ((acc.map Prod.fst).Nodup → (out.map Prod.fst).Nodup) ∧
      ∀ e ∈ out, e ∈ acc ∨ ∀ i ∈ e.2, ∃ iface ∈ interfaces, iface.id = i := by
  intro bf
  induction bf with
  | nil =>
    intro acc out h
    rw [resolve_boundaries] at h
    simp only [Option.some.injEq] at h
    subst h
    exact ⟨fun h2 => h2, fun e he => Or.inl he⟩
  | cons entry more ih =>
    intro acc out h
    obtain ⟨tag, faces⟩ := entry
    rw [resolve_boundaries] at h
    simp only [Option.bind_eq_bind] at h
    obtain ⟨ids, hids, h⟩ := Option.bind_eq_some.mp h
    have hstep := ih (assocInsert acc tag ids) out h
    refine ⟨fun hnd => hstep.1 (assocInsert_nodup acc tag ids hnd), ?_⟩
    intro e he
    rcases hstep.2 e he with hin | hres
    · rcases assocInsert_mem acc tag ids e hin with hin | hin
      · exact Or.inl hin
      · subst hin
        refine Or.inr ?_
        intro i hi
        obtain ⟨face, _, hface⟩ := map_option_mem _ _ _ hids i hi
        try simp only [Option.bind_eq_bind] at hface
        obtain ⟨vs, _, hfind⟩ := Option.bind_eq_some.mp hface
        exact find_interface_with_vertices_mem interfaces vs i hfind
    · exact Or.inr hres

/-- Invariants carried by the line loop: element entries keep the
pattern-of-a-shape form and the boundary map keeps distinct tags. -/
theorem parse_su2_lines_inv (lines : List Su2Line) (st : Su2Data) :
    ∀ (st2 : Su2Data), parse_su2_lines lines st = some st2 →
      ((∀ e ∈ st.cells, ∃ shape : CellShape, shape.interfaces e.2 = some e.1) →
        ∀ e ∈ st2.cells, ∃ shape : CellShape, shape.interfaces e.2 = some e.1) ∧
      ((st.boundary_faces.map Prod.fst).Nodup →
        (st2.boundary_faces.map Prod.fst).Nodup) := by
  induction lines, st using parse_su2_lines.induct with
  | case1 st =>
    intro st2 h
    rw [parse_su2_lines] at h
    simp only [Option.some.injEq] at h
    subst h
    exact ⟨fun h2 => h2, fun h2 => h2⟩
  | case2 rest st d ih =>
    intro st2 h
    rw [parse_su2_lines] at h
    exact ih st2 h
  | case3 rest st n_points ih =>
    intro st2 h
    rw [parse_su2_lines] at h
    simp only [Option.bind_eq_bind] at h
    obtain ⟨dim, hdim, h⟩ := Option.bind_eq_some.mp h
    obtain ⟨pts, hpts, h⟩ := Option.bind_eq_some.mp h
    exact ih pts st2 h
  | case4 rest st n_elem ih =>
    intro st2 h
    rw [parse_su2_lines] at h
    simp only [Option.bind_eq_bind] at h
    obtain ⟨cells, hcells, h⟩ := Option.bind_eq_some.mp h
    have hstep := ih cells st2 h
    refine ⟨fun hin => hstep.1 ?_, hstep.2⟩
    intro e he
    rcases List.mem_append.mp he with he | he
    · exact hin e he
    · exact read_elems_inv n_elem rest cells hcells e he
  | case5 rest st n_boundaries ih =>
    intro st2 h
    rw [parse_su2_lines] at h
    simp only [Option.bind_eq_bind] at h
    obtain ⟨pair, hpair, h⟩ := Option.bind_eq_some.mp h
    obtain ⟨groups, consumed⟩ := pair
    have hstep := ih groups consumed st2 h
    refine ⟨hstep.1, fun hnd => hstep.2 ?_⟩
    exact foldl_assocInsert_nodup groups st.boundary_faces hnd
  | case6 line rest st h1 h2 h3 h4 ih =>
    intro st2 h
    match line, h with
    | Su2Line.ndime d, h => exact absurd rfl (h1 d)
    | Su2Line.npoin n, h => exact absurd rfl (h2 n)
    | Su2Line.nelem n, h => exact absurd rfl (h3 n)
    | Su2Line.nmark n, h => exact absurd rfl (h4 n)
    | Su2Line.markerTag t, h =>
      rw [parse_su2_lines] at h
      exact ih st2 h
      all_goals intro x hx; exact Su2Line.noConfusion hx
    | Su2Line.markerElems n, h =>
      rw [parse_su2_lines] at h
      exact ih st2 h
      all_goals intro x hx; exact Su2Line.noConfusion hx
    | Su2Line.nums toks, h =>
      rw [parse_su2_lines] at h
      exact ih st2 h
      all_goals intro x hx; exact Su2Line.noConfusion hx

/-- Round trip of the su2 element-type codes. -/
theorem CellShape.from_to_su2 (s : CellShape) :
    CellShape.from_su2_element_type s.to_su2_element_type = some s := by
  cases s <;> rfl

/-- The NPOIN loop applied to the writer's coordinate lines restores the
vertex list, provided the ids were dense from the declared offset, the
dimensionality is 2 or 3, and the third coordinate is zero in the
2-dimensional case (the writer does not record it). -/
theorem read_points_write (d : ℕ) (hd : d = 2 ∨ d = 3) (vs : List GridVertex) :
    ∀ (i0 : ℕ) (rest : List Su2Line),
      (d = 2 → ∀ v ∈ vs, v.pos.z = 0) →
      (∀ k v, vs.get? k = some v → v.id = i0 + k) →
      read_points d vs.length i0
        (vs.map (fun vertex =>
          if d = 3 then
            Su2Line.nums [Tok.real vertex.pos.x, Tok.real vertex.pos.y,
              Tok.real vertex.pos.z]
          else
            Su2Line.nums [Tok.real vertex.pos.x, Tok.real vertex.pos.y]) ++ rest)
        = some vs := by
  induction vs with
  | nil => intro i0 rest _ _; rfl
  | cons v vs ih =>
    intro i0 rest hz hids
    have hid0 : v.id = i0 := by simpa using hids 0 v rfl
    have hrec := ih (i0 + 1) rest
      (fun h2 w hw => hz h2 w (List.mem_cons_of_mem v hw))
      (fun k w hw => by rw [hids (k + 1) w (by simpa using hw)]; omega)
    rcases hd with hd | hd
    · subst hd
      have hz0 : v.pos.z = 0 := hz rfl v (List.mem_cons_self v vs)
      have hfun : (fun (vertex : GridVertex) =>
          if (2 : ℕ) = 3 then Su2Line.nums [Tok.real vertex.pos.x,
            Tok.real vertex.pos.y, Tok.real vertex.pos.z]
          else Su2Line.nums [Tok.real vertex.pos.x, Tok.real vertex.pos.y])
          = (fun (vertex : GridVertex) =>
              Su2Line.nums [Tok.real vertex.pos.x, Tok.real vertex.pos.y]) := by
        funext vertex
        rw [if_neg (by norm_num)]
      rw [hfun] at hrec ⊢
      rw [List.map_cons, List.cons_append, List.length_cons, read_points]
      rw [show ((([Tok.real v.pos.x, Tok.real v.pos.y]).map Tok.toReal).take 2)
        = [v.pos.x, v.pos.y] from rfl]
      rw [show Vector3.new_from_vec [v.pos.x, v.pos.y]
        = some ⟨v.pos.x, v.pos.y, 0⟩ from rfl]
      simp only [Option.some_bind, Option.bind_eq_bind]
      rw [hrec]
      have hv : GridVertex.new ⟨v.pos.x, v.pos.y, 0⟩ i0 = v := by
        rcases v with ⟨⟨a, b, c⟩, i⟩
        simp only at hz0 hid0
        rw [GridVertex.new, hz0, hid0]
      rw [hv]
      rfl
    · subst hd
      have hfun : (fun (vertex : GridVertex) =>
          if (3 : ℕ) = 3 then Su2Line.nums [Tok.real vertex.pos.x,
            Tok.real vertex.pos.y, Tok.real vertex.pos.z]
          else Su2Line.nums [Tok.real vertex.pos.x, Tok.real vertex.pos.y])
          = (fun (vertex : GridVertex) =>
              Su2Line.nums [Tok.real vertex.pos.x, Tok.real vertex.pos.y,
                Tok.real vertex.pos.z]) := by
        funext vertex
        rw [if_pos rfl]
      rw [hfun] at hrec ⊢
      rw [List.map_cons, List.cons_append, List.length_cons, read_points]
      rw [show ((([Tok.real v.pos.x, Tok.real v.pos.y, Tok.real v.pos.z]).map
          Tok.toReal).take 3) = [v.pos.x, v.pos.y, v.pos.z] from rfl]
      rw [show Vector3.new_from_vec [v.pos.x, v.pos.y, v.pos.z]
        = some ⟨v.pos.x, v.pos.y, v.pos.z⟩ from rfl]
      simp only [Option.some_bind, Option.bind_eq_bind]
      rw [hrec]
      have hv : GridVertex.new ⟨v.pos.x, v.pos.y, v.pos.z⟩ i0 = v := by
        rcases v with ⟨⟨a, b, c⟩, i⟩
        simp only at hid0
        rw [GridVertex.new, hid0]
      rw [hv]
      rfl

/-- The NELEM loop applied to the writer's element lines restores each
cell's edge pattern and vertex-id list. -/
theorem read_elems_write (cells : List GridCell) :
    ∀ (rest : List Su2Line),
      (∀ c ∈ cells, ∃ conn, c.shape.interfaces c.vertex_ids = some conn) →
      read_elems cells.length
        (cells.map (fun cell => Su2Line.nums
          (Tok.nat cell.shape.to_su2_element_type :: cell.vertex_ids.map Tok.nat)) ++ rest)
        = some (cells.map (fun c =>
            ((c.shape.interfaces c.vertex_ids).getD [], c.vertex_ids))) := by
  induction cells with
  | nil => intro rest _; rfl
  | cons c cells ih =>
    intro rest hconn
    obtain ⟨conn, hc⟩ := hconn c (List.mem_cons_self c cells)
    rw [List.map_cons, List.cons_append, List.length_cons, read_elems]
    rw [show (Tok.nat c.shape.to_su2_element_type :: c.vertex_ids.map Tok.nat)
      = (c.shape.to_su2_element_type :: c.vertex_ids).map Tok.nat from rfl]
    rw [map_option_toNat_natToks]
    simp only [Option.some_bind, Option.bind_eq_bind]
    rw [CellShape.from_to_su2]
    simp only [Option.some_bind]
    rw [hc]
    simp only [Option.some_bind]
    rw [ih rest (fun x hx => hconn x (List.mem_cons_of_mem c hx))]
    simp only [Option.some_bind, List.map_cons, Option.pure_def, Option.some.injEq,
      List.cons.injEq]
    rw [hc]
    simp

/-- The marker-face loop applied to the writer's face lines restores the
face lists. -/
theorem read_face_lines_write (faces : List (List ℕ)) :
    ∀ (rest : List Su2Line),
      read_face_lines faces.length
        (faces.map (fun f => Su2Line.nums (f.map Tok.nat)) ++ rest) = some faces := by
  induction faces with
  | nil => intro rest; rfl
  | cons f faces ih =>
    intro rest
    rw [List.map_cons, List.cons_append, List.length_cons, read_face_lines]
    rw [map_option_toNat_natToks]
    simp only [Option.some_bind, Option.bind_eq_bind]
    rw [ih rest]
    rfl

/-- The NMARK loop applied to the writer's marker sections restores the
boundary groups and consumes exactly the written lines. -/
theorem read_boundaries_write (groups : List (String × List (List ℕ))) :
    ∀ (rest : List Su2Line),
      read_boundaries groups.length
        ((groups.map (fun g => Su2Line.markerTag g.1
          :: Su2Line.markerElems g.2.length
          :: g.2.map (fun f => Su2Line.nums (f.map Tok.nat)))).flatten ++ rest)
        = some (groups,
            ((groups.map (fun g => Su2Line.markerTag g.1
              :: Su2Line.markerElems g.2.length
              :: g.2.map (fun f => Su2Line.nums (f.map Tok.nat)))).flatten).length) := by
  induction groups with
  | nil => intro rest; rfl
  | cons g groups ih =>
    intro rest
    have hbound : ∀ (tail : List Su2Line),
        read_boundary (Su2Line.markerTag g.1 :: Su2Line.markerElems g.2.length
          :: (g.2.map (fun f => Su2Line.nums (f.map Tok.nat)) ++ tail))
        = some ((g.1, g.2), 2 + g.2.length) := by
      intro tail
      rw [read_boundary, read_face_lines_write g.2 tail]
      rfl
    have hdrop : ∀ (m : List Su2Line),
        (Su2Line.markerTag g.1 :: Su2Line.markerElems g.2.length
          :: (g.2.map (fun f => Su2Line.nums (f.map Tok.nat)) ++ m)).drop
            (2 + g.2.length) = m := by
      intro m
      rw [show 2 + g.2.length = g.2.length + 1 + 1 from by omega]
      rw [List.drop_succ_cons, List.drop_succ_cons]
      exact List.drop_left' (by simp)
    rw [List.map_cons, List.length_cons, List.flatten_cons, List.append_assoc,
      List.cons_append, List.cons_append, read_boundaries]
    simp only [Option.bind_eq_bind]
    rw [hbound]
    simp only [Option.some_bind]
    rw [hdrop]
    rw [ih rest]
    simp only [Option.some_bind, Option.pure_def, Option.some.injEq, Prod.mk.injEq]
    constructor
    · trivial
    · simp only [List.cons_append, List.length_append, List.length_cons,
        List.length_map]
      omega

/-- The empty interface list satisfies the invariant. -/
theorem InterfaceListInv_nil (vertices : List GridVertex) :
    InterfaceListInv vertices [] := by
  refine ⟨?_, ?_, ?_⟩
  · intro j iface h
    simp at h
  · intro j i ifj ifi hj
    simp at hj
  · intro iface h
    simp at h

/-- A member interface sits at the index named by its id. -/
theorem InterfaceListInv_mem (vertices : List GridVertex)
    (ifs : List GridInterface) (hinv : InterfaceListInv vertices ifs)
    (iface : GridInterface) (hmem : iface ∈ ifs) :
    ifs.get? iface.id = some iface := by
  obtain ⟨n, hn⟩ := List.mem_iff_get.mp hmem
  have hget : ifs.get? n.1 = some iface := by
    rw [List.get?_eq_get n.2, hn]
  rw [hinv.1 n.1 iface hget]
  exact hget

/-- Shape of a successful triangle edge-pattern computation. -/
theorem CellShape.interfaces_tri (ids : List ℕ) (conn : List (List ℕ))
    (h : CellShape.Triangle.interfaces ids = some conn) :
    ∃ a b c r, ids = a :: b :: c :: r ∧ conn = [[a, b], [b, c], [c, a]] := by
  match ids, h with
  | a :: b :: c :: r, h =>
    rw [CellShape.interfaces] at h
    simp only [Option.some.injEq] at h
    exact ⟨a, b, c, r, rfl, h.symm⟩

/-- Shape of a successful quadrilateral edge-pattern computation. -/
theorem CellShape.interfaces_quad (ids : List ℕ) (conn : List (List ℕ))
    (h : CellShape.Quadrilateral.interfaces ids = some conn) :
    ∃ a b c d r, ids = a :: b :: c :: d :: r ∧
      conn = [[a, b], [b, c], [c, d], [d, a]] := by
  match ids, h with
  | a :: b :: c :: d :: r, h =>
    rw [CellShape.interfaces] at h
    simp only [Option.some.injEq] at h
    exact ⟨a, b, c, d, r, rfl, h.symm⟩

/-- Writing the built cells and re-parsing them restores the element entries
the cells were built from, as long as vertex ids are dense and every cell
has as many faces as vertices (the element-type code and the vertex count
then pin the same shape). -/
theorem cells_entries_roundtrip (vertices : List GridVertex)
    (entries : List (List (List ℕ) × List ℕ)) (ifc : List GridInterface)
    (cls : List GridCell)
    (hbuild : build_cells vertices entries 0 [] [] = some (ifc, cls))
    (hv : ∀ k v, vertices.get? k = some v → v.id = k)
    (hentries : ∀ e ∈ entries, ∃ shape : CellShape, shape.interfaces e.2 = some e.1)
    (hc : ∀ cell ∈ cls, cell.interfaces.length = cell.vertex_ids.length) :
    cls.map (fun c => ((c.shape.interfaces c.vertex_ids).getD [], c.vertex_ids))
      = entries := by
  obtain ⟨hinv, newcells, hcls, hlen, hpoint⟩ :=
    build_cells_spec vertices entries 0 [] [] (ifc, cls) hbuild
      (InterfaceListInv_nil vertices)
  simp only [List.nil_append] at hcls
  replace hcls : cls = newcells := hcls
  subst hcls
  apply List.ext_get?
  intro k
  rw [List.get?_map]
  rcases he : entries.get? k with _ | e
  · have hnone : cls.get? k = none := by
      rw [List.get?_eq_none, hlen]
      exact List.get?_eq_none.mp he
    rw [hnone]
    rfl
  · rcases hcell : cls.get? k with _ | cell
    · exfalso
      rw [List.get?_eq_none, hlen] at hcell
      rcases List.get?_eq_some.mp he with ⟨hlt, _⟩
      omega
    · obtain ⟨fetched, hfetch, hvids, hshape, hflen, _⟩ := hpoint k e cell he hcell
      have hvid2 : cell.vertex_ids = e.2 := by
        rw [hvids, map_option_fetch_ids vertices
          (fun i h => hv i (vertices.get ⟨i, h⟩) (List.get?_eq_some.mpr ⟨h, rfl⟩))
          e.2 fetched hfetch]
      have hfetchlen : fetched.length = e.2.length :=
        map_option_length _ _ _ hfetch
      obtain ⟨shape2, hshape2⟩ := hentries e (List.get?_mem he)
      have hclen : cell.interfaces.length = cell.vertex_ids.length :=
        hc cell (List.get?_mem hcell)
      have helen : e.1.length = e.2.length := by
        rw [← hflen, hclen, hvid2]
      rw [show Option.map
          (fun c => ((c.shape.interfaces c.vertex_ids).getD [], c.vertex_ids))
          (some cell)
        = some ((cell.shape.interfaces cell.vertex_ids).getD [], cell.vertex_ids)
        from rfl]
      simp only [Option.some.injEq]
      cases shape2 with
      | Triangle =>
        obtain ⟨a, b, c, r, hids, hconn⟩ := CellShape.interfaces_tri e.2 e.1 hshape2
        have hr : r = [] := by
          rw [hconn, hids] at helen
          simp only [List.length_cons, List.length_nil] at helen
          have hlr : r.length = 0 := by omega
          exact List.length_eq_zero.mp hlr
        rw [hr] at hids
        have hshape3 : cell.shape = CellShape.Triangle := by
          rw [hfetchlen, hids] at hshape
          rw [show CellShape.from_number_of_vertices ([a, b, c].length)
            = some CellShape.Triangle from rfl] at hshape
          simp only [Option.some.injEq] at hshape
          exact hshape.symm
        refine Prod.ext ?_ hvid2
        show (cell.shape.interfaces cell.vertex_ids).getD [] = e.1
        rw [hshape3, hvid2, hids]
        rw [show CellShape.Triangle.interfaces [a, b, c]
          = some [[a, b], [b, c], [c, a]] from rfl]
        rw [hconn]
        rfl
      | Quadrilateral =>
        obtain ⟨a, b, c, d, r, hids, hconn⟩ :=
          CellShape.interfaces_quad e.2 e.1 hshape2
        have hr : r = [] := by
          rw [hconn, hids] at helen
          simp only [List.length_cons, List.length_nil] at helen
          have hlr : r.length = 0 := by omega
          exact List.length_eq_zero.mp hlr
        rw [hr] at hids
        have hshape3 : cell.shape = CellShape.Quadrilateral := by
          rw [hfetchlen, hids] at hshape
          rw [show CellShape.from_number_of_vertices ([a, b, c, d].length)
            = some CellShape.Quadrilateral from rfl] at hshape
          simp only [Option.some.injEq] at hshape
          exact hshape.symm
        refine Prod.ext ?_ hvid2
        show (cell.shape.interfaces cell.vertex_ids).getD [] = e.1
        rw [hshape3, hvid2, hids]
        rw [show CellShape.Quadrilateral.interfaces [a, b, c, d]
          = some [[a, b], [b, c], [c, d], [d, a]] from rfl]
        rw [hconn]
        rfl

/-- map_option over a mapped list whose resolver inverts the mapping. -/
theorem map_option_map_inverts {A B : Type} (f : B → Option A) (m : A → B)
    (l : List A) (h : ∀ a ∈ l, f (m a) = some a) :
    map_option f (l.map m) = some l := by
  induction l with
  | nil => rfl
  | cons a rest ih =>
    rw [List.map_cons, map_option, h a (List.mem_cons_self a rest),
      ih (fun x hx => h x (List.mem_cons_of_mem a hx))]
    rfl

/-- Re-resolving a written boundary face: the face line carries exactly the
interface's vertex ids, whose fetch succeeds under dense vertex ids, and the
dedup scan returns precisely that interface's id. -/
theorem boundary_face_roundtrip (vertices : List GridVertex)
    (interfaces : List GridInterface)
    (hv : ∀ k v, vertices.get? k = some v → v.id = k)
    (hinv : InterfaceListInv vertices interfaces)
    (i : ℕ) (iface : GridInterface) (hi : interfaces.get? i = some iface) :
    (do
      let vs ← map_option (fun id => vertices.get? id)
        (((interfaces.getD i default).shape.to_su2_element_type
          :: (interfaces.getD i default).vertex_ids).drop 1)
      find_interface_with_vertices interfaces vs) = some i := by
  have hgetD : interfaces.getD i default = iface := by
    rw [List.getD_eq_getElem?_getD, ← List.get?_eq_getElem?, hi]
    rfl
  obtain ⟨u0, u1, i0, i1, hu0, hu1, hline⟩ :=
    hinv.2.2 iface (List.get?_mem hi)
  have hvids : iface.vertex_ids = [u0.id, u1.id] :=
    (congrArg GridInterface.vertex_ids hline).trans rfl
  have h0 : vertices.get? u0.id = some u0 := by
    rw [hv i0 u0 hu0]
    exact hu0
  have h1 : vertices.get? u1.id = some u1 := by
    rw [hv i1 u1 hu1]
    exact hu1
  have hfetch : map_option (fun id => vertices.get? id) [u0.id, u1.id]
      = some [u0, u1] := by
    rw [map_option, h0]
    rw [show map_option (fun id => vertices.get? id) [u1.id]
      = some [u1] from by rw [map_option, h1]; rfl]
    rfl
  have hilt : i < interfaces.length := (List.get?_eq_some.mp hi).1
  have hmemids : ∀ v ∈ [u0, u1], v.id ∈ iface.vertex_ids := by
    intro v hvmem
    rw [hvids]
    rcases List.mem_cons.mp hvmem with hvm | hvm
    · rw [hvm]
      simp
    · rw [List.mem_singleton] at hvm
      rw [hvm]
      simp
  have hfind : interfaces.find?
      (fun ifc => ifc.equal_to_vertices [u0, u1]) = some iface := by
    have hgi : interfaces.get ⟨i, hilt⟩ = iface := by
      have := List.get?_eq_get hilt
      rw [hi] at this
      exact (Option.some.injEq _ _).mp this.symm
    rw [← hgi]
    apply find?_at_index
    · intro j hj
      have hjlt : j < interfaces.length := Nat.lt_trans hj hilt
      have hgj : interfaces.get? j = some (interfaces.get ⟨j, hjlt⟩) :=
        List.get?_eq_get hjlt
      rw [Bool.eq_false_iff]
      intro htrue
      have hsub := (equal_to_vertices_eq_true_iff _ _).mp htrue
      have hnot := hinv.2.1 i j iface (interfaces.get ⟨j, hjlt⟩) hi hgj hj
      apply hnot
      intro x hx
      rw [hvids] at hx
      rcases List.mem_cons.mp hx with hxm | hxm
      · rw [hxm]
        exact hsub u0 (by simp)
      · rw [List.mem_singleton] at hxm
        rw [hxm]
        exact hsub u1 (by simp)
    · rw [hgi]
      rw [equal_to_vertices_eq_true_iff]
      exact hmemids
  rw [hgetD]
  rw [show (iface.shape.to_su2_element_type :: iface.vertex_ids).drop 1
    = iface.vertex_ids from rfl]
  rw [hvids, hfetch]
  simp only [Option.some_bind, Option.bind_eq_bind]
  rw [find_interface_with_vertices, hfind]
  simp only [Option.some.injEq]
  exact hinv.1 i iface hi

/-- Re-resolving the writer's boundary groups appends the original entries
untouched, provided each group's faces re-resolve to its original ids and
tags are fresh and pairwise distinct. -/
theorem resolve_boundaries_write (vertices : List GridVertex)
    (interfaces : List GridInterface) (entries : List (String × List ℕ)) :
    ∀ (acc : List (String × List ℕ)),
      (∀ e ∈ entries, ∀ a ∈ acc, a.1 ≠ e.1) →
      (entries.map Prod.fst).Nodup →
      (∀ e ∈ entries, map_option (fun face => do
          let vs ← map_option (fun id => vertices.get? id) (face.drop 1)
          find_interface_with_vertices interfaces vs)
        (e.2.map (fun i => (interfaces.getD i default).shape.to_su2_element_type
          :: (interfaces.getD i default).vertex_ids)) = some e.2) →
      resolve_boundaries vertices interfaces
        (entries.map (fun e => (e.1, e.2.map (fun i =>
          (interfaces.getD i default).shape.to_su2_element_type
            :: (interfaces.getD i default).vertex_ids)))) acc
      = some (acc ++ entries) := by
  induction entries with
  | nil => intro acc _ _ _; simp [resolve_boundaries]
  | cons e more ih =>
    intro acc hfresh hnodup hres
    have hres0 := hres e (List.mem_cons_self e more)
    have hfresh0 := fun a ha => hfresh e (List.mem_cons_self e more) a ha
    obtain ⟨tag, ids⟩ := e
    rw [show (((tag, ids) : String × List ℕ) :: more).map (fun e => (e.1,
        e.2.map (fun i => (interfaces.getD i default).shape.to_su2_element_type
          :: (interfaces.getD i default).vertex_ids)))
      = (tag, ids.map (fun i =>
          (interfaces.getD i default).shape.to_su2_element_type
            :: (interfaces.getD i default).vertex_ids))
        :: more.map (fun e => (e.1,
          e.2.map (fun i => (interfaces.getD i default).shape.to_su2_element_type
            :: (interfaces.getD i default).vertex_ids))) from rfl]
    rw [resolve_boundaries]
    refine Option.bind_eq_some.mpr ⟨ids, hres0, ?_⟩
    rw [show assocInsert acc tag ids = acc ++ [(tag, ids)] from
      assocInsert_fresh acc tag ids (fun a ha => hfresh0 a ha)]
    rw [ih (acc ++ [(tag, ids)]) ?_ ?_ ?_]
    · rw [List.append_assoc]
      rfl
    · intro g hg a ha
      rcases List.mem_append.mp ha with ha | ha
      · exact hfresh g (List.mem_cons_of_mem (tag, ids) hg) a ha
      · rw [List.mem_singleton] at ha
        subst ha
        simp only [List.map_cons, List.nodup_cons] at hnodup
        intro hc
        refine hnodup.1 ?_
        rw [show tag = g.1 from hc]
        exact List.mem_map_of_mem Prod.fst hg
    · simp only [List.map_cons, List.nodup_cons] at hnodup
      exact hnodup.2
    · intro g hg
      exact hres g (List.mem_cons_of_mem (tag, ids) hg)

/-- One step of the line loop on an NDIME header. -/
theorem parse_step_ndime (d : ℕ) (rest : List Su2Line) (a b : Option ℕ)
    (vs : List GridVertex) (cs : List (List (List ℕ) × List ℕ))
    (bf : List (String × List (List ℕ))) :
    parse_su2_lines (Su2Line.ndime d :: rest) ⟨a, b, vs, cs, bf⟩
      = parse_su2_lines rest ⟨some d, b, vs, cs, bf⟩ := by
  rw [parse_su2_lines]

/-- One step of the line loop on an NPOIN header with the dimension known. -/
theorem parse_step_npoin (n : ℕ) (rest : List Su2Line) (d : ℕ) (b : Option ℕ)
    (vs : List GridVertex) (cs : List (List (List ℕ) × List ℕ))
    (bf : List (String × List (List ℕ))) :
    parse_su2_lines (Su2Line.npoin n :: rest) ⟨some d, b, vs, cs, bf⟩
      = (read_points d n 0 rest).bind fun pts =>
          parse_su2_lines (rest.drop n) ⟨some d, b, vs ++ pts, cs, bf⟩ := by
  rw [parse_su2_lines]
  rfl

/-- One step of the line loop on an NELEM header. -/
theorem parse_step_nelem (n : ℕ) (rest : List Su2Line) (a b : Option ℕ)
    (vs : List GridVertex) (cs : List (List (List ℕ) × List ℕ))
    (bf : List (String × List (List ℕ))) :
    parse_su2_lines (Su2Line.nelem n :: rest) ⟨a, b, vs, cs, bf⟩
      = (read_elems n rest).bind fun cells =>
          parse_su2_lines (rest.drop n) ⟨a, some n, vs, cs ++ cells, bf⟩ := by
  rw [parse_su2_lines]
  rfl

/-- One step of the line loop on an NMARK header. -/
theorem parse_step_nmark (n : ℕ) (rest : List Su2Line) (a b : Option ℕ)
    (vs : List GridVertex) (cs : List (List (List ℕ) × List ℕ))
    (bf : List (String × List (List ℕ))) :
    parse_su2_lines (Su2Line.nmark n :: rest) ⟨a, b, vs, cs, bf⟩
      = (read_boundaries n rest).bind fun gc =>
          parse_su2_lines (rest.drop gc.2)
            ⟨a, b, vs, cs, gc.1.foldl (fun m g => assocInsert m g.1 g.2) bf⟩ := by
  rw [parse_su2_lines]
  rfl

/-- Parsing the writer's output restores the pre-assembly state: the
dimension and the cell count, the vertices, the element entries in
edge-pattern form and the boundary groups keyed by tag, in order. -/
theorem parse_write_su2 (B : GridBlock)
    (hdim : B.dimensions = 2 ∨ B.dimensions = 3)
    (hz : B.dimensions = 2 → ∀ v ∈ B.vertices, v.pos.z = 0)
    (hv : ∀ k v, B.vertices.get? k = some v → v.id = k)
    (hconn : ∀ c ∈ B.cells, ∃ conn, c.shape.interfaces c.vertex_ids = some conn)
    (hbn : (B.boundaries.map Prod.fst).Nodup) :
    parse_su2_lines (write_su2 B) Su2Data.init
      = some ⟨some B.dimensions, some B.cells.length, B.vertices,
          B.cells.map (fun c =>
            ((c.shape.interfaces c.vertex_ids).getD [], c.vertex_ids)),
          B.boundaries.map (fun e => (e.1, e.2.map (fun i =>
            (B.interfaces.getD i default).shape.to_su2_element_type
              :: (B.interfaces.getD i default).vertex_ids)))⟩ := by
  set groups := B.boundaries.map (fun e => (e.1, e.2.map (fun i =>
    (B.interfaces.getD i default).shape.to_su2_element_type
      :: (B.interfaces.getD i default).vertex_ids))) with hgroups
  have hgn : (groups.map Prod.fst).Nodup := by
    rw [hgroups, List.map_map]
    exact hbn
  have hglen : B.boundaries.length = groups.length := by
    rw [hgroups, List.length_map]
  have hmark : B.boundaries.map (fun bndry =>
        Su2Line.markerTag bndry.1
        :: Su2Line.markerElems bndry.2.length
        :: bndry.2.map (fun interface =>
            Su2Line.nums (Tok.nat
                (B.interfaces.getD interface default).shape.to_su2_element_type
              :: (B.interfaces.getD interface default).vertex_ids.map Tok.nat)))
      = groups.map (fun g => Su2Line.markerTag g.1
          :: Su2Line.markerElems g.2.length
          :: g.2.map (fun f => Su2Line.nums (f.map Tok.nat))) := by
    rw [hgroups, List.map_map]
    refine congrArg (fun f => B.boundaries.map f) ?_
    funext bndry
    simp only [Function.comp_apply, List.map_map, List.length_map]
    rfl
  rw [write_su2]
  simp only [List.append_assoc, List.cons_append, List.nil_append]
  rw [show Su2Data.init = (⟨none, none, [], [], []⟩ : Su2Data) from rfl]
  rw [parse_step_ndime]
  rw [parse_step_npoin]
  rw [read_points_write B.dimensions hdim B.vertices 0 _ hz
    (fun k v h => by rw [hv k v h]; omega)]
  simp only [Option.some_bind, List.nil_append]
  rw [List.drop_left' (List.length_map _ _)]
  rw [parse_step_nelem]
  rw [read_elems_write B.cells _ hconn]
  simp only [Option.some_bind, List.nil_append]
  rw [List.drop_left' (List.length_map _ _)]
  rw [parse_step_nmark]
  rw [hmark]
  rw [hglen]
  have hrb := read_boundaries_write groups []
  rw [List.append_nil] at hrb
  rw [hrb]
  simp only [Option.some_bind]
  rw [List.drop_length]
  rw [foldl_assocInsert_fresh groups []
    (fun g _ a ha => absurd ha (List.not_mem_nil a)) hgn]
  rw [parse_su2_lines]
  simp only [List.nil_append]

/-! ## C1: the write/read round trip -/

/-- C1: reading back the SU2 text produced by writing a block restores the
block exactly — same vertices (hence equal positions), same interfaces
(hence equal vertex-id sets), same cells (hence equal vertex-id sequences),
same boundary tag-to-interface mapping, same dimensions and id — for every
block the reader itself produced, provided the block's vertex ids are dense
(the vertex at index k has id k), its dimension is 2 or 3, the third
coordinate vanishes in the 2-dimensional case (the writer does not record
it), and every cell has as many faces as vertices. -/
theorem read_write_roundtrip (lines : List Su2Line) (id0 : ℕ) (B : GridBlock)
    (hread : read_su2 lines id0 = some B)
    (hv : ∀ k v, B.vertices.get? k = some v → v.id = k)
    (hdim : B.dimensions = 2 ∨ B.dimensions = 3)
    (hz : B.dimensions = 2 → ∀ v ∈ B.vertices, v.pos.z = 0)
    (hc : ∀ cell ∈ B.cells, cell.interfaces.length = cell.vertex_ids.length) :
    read_su2 (write_su2 B) id0 = some B := by
  obtain ⟨st, hst, nc, hnc, ifc, cls, hbuild, bnd, hbnd, d, hd, hB⟩ :=
    read_su2_spec lines id0 B hread
  have hBv : B.vertices = st.vertices := by rw [hB]; rfl
  have hBi : B.interfaces = ifc := by rw [hB]; rfl
  have hBc : B.cells = cls := by rw [hB]; rfl
  have hBb : B.boundaries = bnd := by rw [hB]; rfl
  have hBd : B.dimensions = d := by rw [hB]; rfl
  have hinv0 := parse_su2_lines_inv lines Su2Data.init st hst
  have hentries : ∀ e ∈ st.cells, ∃ shape : CellShape,
      shape.interfaces e.2 = some e.1 :=
    hinv0.1 (fun e he => absurd he (List.not_mem_nil e))
  have hv2 : ∀ k v, st.vertices.get? k = some v → v.id = k := by
    rw [← hBv]
    exact hv
  have hc2 : ∀ cell ∈ cls, cell.interfaces.length = cell.vertex_ids.length := by
    rw [← hBc]
    exact hc
  have hcells : cls.map (fun c =>
      ((c.shape.interfaces c.vertex_ids).getD [], c.vertex_ids)) = st.cells :=
    cells_entries_roundtrip st.vertices st.cells ifc cls hbuild hv2 hentries hc2
  have hinv : InterfaceListInv st.vertices ifc :=
    (build_cells_spec st.vertices st.cells 0 [] [] (ifc, cls) hbuild
      (InterfaceListInv_nil st.vertices)).1
  have hconn : ∀ c ∈ B.cells, ∃ conn,
      c.shape.interfaces c.vertex_ids = some conn := by
    rw [hBc]
    intro c hcmem
    rcases hopt : c.shape.interfaces c.vertex_ids with _ | conn
    · exfalso
      have hmm : ((c.shape.interfaces c.vertex_ids).getD [], c.vertex_ids)
          ∈ st.cells := by
        rw [← hcells]
        exact List.mem_map_of_mem _ hcmem
      obtain ⟨shape2, hsh⟩ := hentries _ hmm
      dsimp only at hsh
      rw [hopt] at hsh
      rw [show (Option.getD (none : Option (List (List ℕ))) []) = [] from rfl] at hsh
      cases shape2 with
      | Triangle =>
        obtain ⟨a, b2, c2, r, hids, hconn2⟩ := CellShape.interfaces_tri _ _ hsh
        exact List.noConfusion hconn2
      | Quadrilateral =>
        obtain ⟨a, b2, c2, d2, r, hids, hconn2⟩ := CellShape.interfaces_quad _ _ hsh
        exact List.noConfusion hconn2
    · exact ⟨conn, rfl⟩
  have hbnod : (B.boundaries.map Prod.fst).Nodup := by
    rw [hBb]
    exact (resolve_boundaries_spec st.vertices ifc st.boundary_faces [] bnd hbnd).1
      (by simp)
  have hparse := parse_write_su2 B hdim hz hv hconn hbnod
  have hboundres : ∀ e ∈ B.boundaries,
      map_option (fun face => do
        let vertices_in_face ← map_option (fun id => st.vertices.get? id)
          (face.drop 1)
        find_interface_with_vertices ifc vertices_in_face)
      (e.2.map (fun i => (ifc.getD i default).shape.to_su2_element_type
        :: (ifc.getD i default).vertex_ids)) = some e.2 := by
    intro e he
    apply map_option_map_inverts
    intro i hi
    have hmem : e ∈ bnd := by
      rw [← hBb]
      exact he
    rcases (resolve_boundaries_spec st.vertices ifc st.boundary_faces [] bnd
        hbnd).2 e hmem with hacc | hids
    · exact absurd hacc (List.not_mem_nil e)
    · obtain ⟨iface, hifmem, hifid⟩ := hids i hi
      have hget : ifc.get? i = some iface := by
        rw [← hifid]
        exact InterfaceListInv_mem st.vertices ifc hinv iface hifmem
      exact boundary_face_roundtrip st.vertices ifc hv2 hinv i iface hget
  have hres := resolve_boundaries_write st.vertices ifc B.boundaries []
    (fun e _ a ha => absurd ha (List.not_mem_nil a)) hbnod hboundres
  rw [read_su2]
  simp only [Option.bind_eq_bind]
  rw [hparse]
  simp only [Option.some_bind]
  rw [hBc, hcells, hBv, hBi]
  rw [hbuild]
  simp only [Option.some_bind]
  rw [hres]
  simp only [Option.some_bind, List.nil_append]
  rw [hBb, hBd, hB]
  rfl

/-- A point whose signed distance ratio is at least the tolerance below
zero is classified Outwards. -/
theorem compute_direction_outwards_of_le (iface : GridInterface) (point : Vector3)
    (dv : ℝ) (hdot : (point - iface.centre).dot iface.n = dv)
    (hle : dv ≤ -1e-14) :
    iface.compute_direction point = some Direction.Outwards := by
  have hpos : (0 : ℝ) < 1e-14 := by norm_num
  have hneg : dv ≤ 0 := by linarith
  show (if |(point - iface.centre).dot iface.n| < 1e-14 then none
    else if (point - iface.centre).dot iface.n > 0 then some Direction.Inwards
    else some Direction.Outwards) = some Direction.Outwards
  rw [hdot, abs_of_nonpos hneg]
  rw [if_neg (not_lt.mpr (by linarith)), if_neg (not_lt.mpr hneg)]

/-- The bottom edge of the unit square sees the square's centroid at signed
offset -1/2. -/
theorem square_dot0 :
    ((compute_centre_of_vertices square_vertices)
        - (GridInterface.new_line ⟨⟨0, 0, 0⟩, 0⟩ ⟨⟨1, 0, 0⟩, 1⟩ 0).centre).dot
      (GridInterface.new_line ⟨⟨0, 0, 0⟩, 0⟩ ⟨⟨1, 0, 0⟩, 1⟩ 0).n = -(1 / 2) := by
  simp only [compute_centre_of_vertices, square_vertices, List.foldl_cons,
    List.foldl_nil, Vector3.add_def, Vector3.scale, List.length_cons,
    List.length_nil, GridInterface.new_line, GridVertex.vector_to,
    Vector3.sub_def, Vector3.normalised, Vector3.length, Vector3.cross,
    Vector3.dot]
  norm_num [Real.sqrt_one]

/-- The right edge of the unit square sees the square's centroid at signed
offset -1/2. -/
theorem square_dot1 :
    ((compute_centre_of_vertices square_vertices)
        - (GridInterface.new_line ⟨⟨1, 0, 0⟩, 1⟩ ⟨⟨1, 1, 0⟩, 2⟩ 1).centre).dot
      (GridInterface.new_line ⟨⟨1, 0, 0⟩, 1⟩ ⟨⟨1, 1, 0⟩, 2⟩ 1).n = -(1 / 2) := by
  simp only [compute_centre_of_vertices, square_vertices, List.foldl_cons,
    List.foldl_nil, Vector3.add_def, Vector3.scale, List.length_cons,
    List.length_nil, GridInterface.new_line, GridVertex.vector_to,
    Vector3.sub_def, Vector3.normalised, Vector3.length, Vector3.cross,
    Vector3.dot]
  norm_num [Real.sqrt_one]

/-- The top edge of the unit square sees the square's centroid at signed
offset -1/2. -/
theorem square_dot2 :
    ((compute_centre_of_vertices square_vertices)
        - (GridInterface.new_line ⟨⟨1, 1, 0⟩, 2⟩ ⟨⟨0, 1, 0⟩, 3⟩ 2).centre).dot
      (GridInterface.new_line ⟨⟨1, 1, 0⟩, 2⟩ ⟨⟨0, 1, 0⟩, 3⟩ 2).n = -(1 / 2) := by
  simp only [compute_centre_of_vertices, square_vertices, List.foldl_cons,
    List.foldl_nil, Vector3.add_def, Vector3.scale, List.length_cons,
    List.length_nil, GridInterface.new_line, GridVertex.vector_to,
    Vector3.sub_def, Vector3.normalised, Vector3.length, Vector3.cross,
    Vector3.dot]
  norm_num [Real.sqrt_one]

/-- The left edge of the unit square sees the square's centroid at signed
offset -1/2. -/
theorem square_dot3 :
    ((compute_centre_of_vertices square_vertices)
        - (GridInterface.new_line ⟨⟨0, 1, 0⟩, 3⟩ ⟨⟨0, 0, 0⟩, 0⟩ 3).centre).dot
      (GridInterface.new_line ⟨⟨0, 1, 0⟩, 3⟩ ⟨⟨0, 0, 0⟩, 0⟩ 3).n = -(1 / 2) := by
  simp only [compute_centre_of_vertices, square_vertices, List.foldl_cons,
    List.foldl_nil, Vector3.add_def, Vector3.scale, List.length_cons,
    List.length_nil, GridInterface.new_line, GridVertex.vector_to,
    Vector3.sub_def, Vector3.normalised, Vector3.length, Vector3.cross,
    Vector3.dot]
  norm_num [Real.sqrt_one]

/-- Every edge of the unit-square fixture classifies the cell centroid
Outwards. -/
theorem square_faces :
    map_option (fun iface =>
      (iface.compute_direction (compute_centre_of_vertices square_vertices)).bind
        fun direction => pure (CellFace.mk iface.id direction)) square_interfaces
    = some (square_interfaces.map
        (fun iface => CellFace.mk iface.id Direction.Outwards)) := by
  apply map_option_of_pointwise
  intro iface hmem
  have htol : -(1 / 2 : ℝ) ≤ -1e-14 := by norm_num
  rw [show square_interfaces
      = GridInterface.new_line ⟨⟨0, 0, 0⟩, 0⟩ ⟨⟨1, 0, 0⟩, 1⟩ 0
        :: GridInterface.new_line ⟨⟨1, 0, 0⟩, 1⟩ ⟨⟨1, 1, 0⟩, 2⟩ 1
        :: GridInterface.new_line ⟨⟨1, 1, 0⟩, 2⟩ ⟨⟨0, 1, 0⟩, 3⟩ 2
        :: GridInterface.new_line ⟨⟨0, 1, 0⟩, 3⟩ ⟨⟨0, 0, 0⟩, 0⟩ 3 :: []
      from rfl] at hmem
  rcases List.mem_cons.mp hmem with h | hmem
  · subst h
    rw [compute_direction_outwards_of_le _ _ _ square_dot0 htol]
    rfl
  rcases List.mem_cons.mp hmem with h | hmem
  · subst h
    rw [compute_direction_outwards_of_le _ _ _ square_dot1 htol]
    rfl
  rcases List.mem_cons.mp hmem with h | hmem
  · subst h
    rw [compute_direction_outwards_of_le _ _ _ square_dot2 htol]
    rfl
  rcases List.mem_cons.mp hmem with h | hmem
  · subst h
    rw [compute_direction_outwards_of_le _ _ _ square_dot3 htol]
    rfl
  exact absurd hmem (List.not_mem_nil iface)

/-- Constructing the unit-square cell from its resolved interfaces and
vertices. -/
theorem square_cell_new :
    GridCell.new square_interfaces square_vertices 0 = some square_cell := by
  rw [GridCell.new]
  simp only [Option.bind_eq_bind]
  refine Option.bind_eq_some.mpr ⟨CellShape.Quadrilateral, rfl, ?_⟩
  refine Option.bind_eq_some.mpr ⟨_, square_faces, ?_⟩
  refine Option.bind_eq_some.mpr ⟨(quad_area square_vertices).getD 0, rfl, ?_⟩
  rfl

/-- Building the cells of the unit-square fixture. -/
theorem square_build :
    build_cells square_vertices [([[0, 1], [1, 2], [2, 3], [3, 0]], [0, 1, 2, 3])]
      0 [] [] = some (square_interfaces, [square_cell]) := by
  rw [build_cells]
  simp only [Option.bind_eq_bind]
  refine Option.bind_eq_some.mpr ⟨([0, 1, 2, 3], square_interfaces), rfl, ?_⟩
  refine Option.bind_eq_some.mpr ⟨square_interfaces, rfl, ?_⟩
  refine Option.bind_eq_some.mpr ⟨square_vertices, rfl, ?_⟩
  refine Option.bind_eq_some.mpr ⟨square_cell, square_cell_new, ?_⟩
  rw [build_cells]
  rfl

/-- Parsing the unit-square fixture's lines. -/
theorem square_parse :
    parse_su2_lines square_lines Su2Data.init
      = some ⟨some 2, some 1, square_vertices,
          [([[0, 1], [1, 2], [2, 3], [3, 0]], [0, 1, 2, 3])],
          [("wall", [[3, 0, 1]])]⟩ := by
  simp only [square_lines]
  rw [show Su2Data.init = (⟨none, none, [], [], []⟩ : Su2Data) from rfl]
  rw [parse_step_ndime, parse_step_npoin]
  refine Option.bind_eq_some.mpr ⟨square_vertices, rfl, ?_⟩
  simp only [List.drop_succ_cons, List.drop_zero, List.nil_append]
  rw [parse_step_nelem]
  refine Option.bind_eq_some.mpr
    ⟨[([[0, 1], [1, 2], [2, 3], [3, 0]], [0, 1, 2, 3])], rfl, ?_⟩
  simp only [List.drop_succ_cons, List.drop_zero, List.nil_append]
  rw [parse_step_nmark]
  refine Option.bind_eq_some.mpr ⟨([("wall", [[3, 0, 1]])], 3), rfl, ?_⟩
  show parse_su2_lines [] ⟨some 2, some 1, square_vertices,
      [([[0, 1], [1, 2], [2, 3], [3, 0]], [0, 1, 2, 3])],
      [("wall", [[3, 0, 1]])]⟩
    = some ⟨some 2, some 1, square_vertices,
      [([[0, 1], [1, 2], [2, 3], [3, 0]], [0, 1, 2, 3])],
      [("wall", [[3, 0, 1]])]⟩
  rw [parse_su2_lines]

/-- Resolving the unit-square fixture's single boundary group. -/
theorem square_bound :
    resolve_boundaries square_vertices square_interfaces
      [("wall", [[3, 0, 1]])] [] = some [("wall", [0])] := by
  rw [resolve_boundaries]
  refine Option.bind_eq_some.mpr ⟨[0], rfl, ?_⟩
  rw [resolve_boundaries]
  rfl

/-- The reader on the unit-square fixture produces the square block. -/
theorem square_read : read_su2 square_lines 0 = some square_block := by
  rw [read_su2]
  simp only [Option.bind_eq_bind]
  refine Option.bind_eq_some.mpr ⟨_, square_parse, ?_⟩
  refine Option.bind_eq_some.mpr ⟨1, rfl, ?_⟩
  refine Option.bind_eq_some.mpr ⟨(square_interfaces, [square_cell]),
    square_build, ?_⟩
  refine Option.bind_eq_some.mpr ⟨[("wall", [0])], square_bound, ?_⟩
  refine Option.bind_eq_some.mpr ⟨2, rfl, ?_⟩
  rfl

/-! ## C3: the canonical deduplication key -/

/-- C3 counterexample: the vertex-id set given as the spec's example,
{1, 11}, does not hash to 1110; it hashes to 111 (the digits of 11 then 1
concatenated). -/
theorem hash_example_of_claim_is_false :
    hash [1, 11] = some 111 ∧ hash [1, 11] ≠ some 1110 := by
  constructor
  · decide
  · decide

/-- C3 (amended): the canonical key sorts the vertex ids in descending
order, concatenates their decimal digit representations and parses the
result as an integer; the key is therefore order-independent, the set
{1, 11} hashes to 111, and the set {0, 1, 11} (the example in the code's
own test) hashes to 1110. -/
theorem hash_canonical_key :
    (∀ l l2 : List ℕ, l.Perm l2 → hash l = hash l2) ∧
    hash [1, 11] = some 111 ∧
    hash [11, 1] = some 111 ∧
    hash [0, 1, 11] = some 1110 ∧
    hash [12, 11] = some 1211 := by
  refine ⟨hash_perm, by decide, by decide, by decide, by decide⟩

/-- C3 witness: the order-independence conjunct applied to a concrete
permutation. -/
theorem hash_canonical_key_witness :
    hash [7, 3] = hash [3, 7] :=
  hash_canonical_key.1 [7, 3] [3, 7] (List.Perm.swap 3 7 [])

/-! ## C2: add_or_retrieve deduplication -/

/-- C2 (amended): from any collection state in which the pair's canonical
key is not yet registered, add_or_retrieve registers the interface under id
equal to the collection size at the moment of insertion, a second call with
the same two vertices (in either order) returns that same id and leaves the
collection unchanged, and the interface count over the two calls grows by
exactly one. -/
theorem add_or_retrieve_fresh_pair (c : InterfaceCollection) (v0 v1 : GridVertex)
    (k : ℕ) (hk : hash [v0.id, v1.id] = some k)
    (habsent : c.interfaces.lookup k = none) :
    ∃ c1 : InterfaceCollection,
      c.add_or_retrieve [v0, v1] = some (c.interfaces.length, c1) ∧
      c1.add_or_retrieve [v0, v1] = some (c.interfaces.length, c1) ∧
      c1.add_or_retrieve [v1, v0] = some (c.interfaces.length, c1) ∧
      c1.interfaces.length = c.interfaces.length + 1 := by
  have hk2 : hash [v1.id, v0.id] = some k := by
    rw [hash_perm [v1.id, v0.id] [v0.id, v1.id] (List.Perm.swap _ _ _)]
    exact hk
  have hfound :
      (c.interfaces ++ [(k, GridInterface.new_line v0 v1 c.interfaces.length)]).lookup k
        = some (GridInterface.new_line v0 v1 c.interfaces.length) := by
    rw [lookup_append_of_none _ _ _ habsent]
    simp [List.lookup]
  refine ⟨⟨c.interfaces ++ [(k, GridInterface.new_line v0 v1 c.interfaces.length)],
          c.id_to_hash ++ [(c.interfaces.length, k)]⟩, ?_, ?_, ?_, ?_⟩
  · simp [InterfaceCollection.add_or_retrieve, hk, habsent,
      GridInterface.new_from_vertices_pair, GridInterface.new_line_id]
  · simp [InterfaceCollection.add_or_retrieve, hk, hfound, GridInterface.new_line_id]
  · simp [InterfaceCollection.add_or_retrieve, hk2, hfound, GridInterface.new_line_id]
  · simp

/-- C2 witness: two fresh vertices against the empty collection. -/
theorem add_or_retrieve_fresh_pair_witness :
    ∃ c1 : InterfaceCollection,
      InterfaceCollection.empty.add_or_retrieve
        [GridVertex.new ⟨0, 0, 0⟩ 0, GridVertex.new ⟨1, 1, 0⟩ 1] = some (0, c1) ∧
      c1.add_or_retrieve
        [GridVertex.new ⟨0, 0, 0⟩ 0, GridVertex.new ⟨1, 1, 0⟩ 1] = some (0, c1) ∧
      c1.add_or_retrieve
        [GridVertex.new ⟨1, 1, 0⟩ 1, GridVertex.new ⟨0, 0, 0⟩ 0] = some (0, c1) ∧
      c1.interfaces.length = 0 + 1 :=
  add_or_retrieve_fresh_pair InterfaceCollection.empty
    (GridVertex.new ⟨0, 0, 0⟩ 0) (GridVertex.new ⟨1, 1, 0⟩ 1) 10
    (by decide) rfl

/-- C2 counterexample: the claim quantifies over every collection state, but
from a state that already holds the pair's key the two calls leave the count
unchanged, so it does not increase by exactly one. -/
theorem add_or_retrieve_count_claim_false :
    ∃ (c1 : InterfaceCollection) (v0 v1 : GridVertex),
      c1.add_or_retrieve [v0, v1] = some (0, c1) ∧
      c1.interfaces.length = 1 ∧
      ¬ c1.interfaces.length = c1.interfaces.length + 1 := by
  refine ⟨⟨[(10, ⟨[0, 1], 0, ⟨0, 0, 0⟩, ⟨0, 0, 0⟩, ⟨0, 0, 0⟩, ⟨0, 0, 0⟩,
              InterfaceShape.Line, 0⟩)], [(0, 10)]⟩,
          GridVertex.new ⟨0, 0, 0⟩ 0, GridVertex.new ⟨1, 1, 0⟩ 1, ?_, rfl, by omega⟩
  have hk : hash [0, 1] = some 10 := by decide
  simp [InterfaceCollection.add_or_retrieve, GridVertex.new, hk, List.lookup]

/-! ## C9: canonical-key collisions silently merge distinct interfaces -/

/-- C9: the distinct vertex-id sets {12, 11} and {121, 1} share the
canonical key 1211, so after the first set registers an interface,
add_or_retrieve on the second, geometrically different set returns the first
interface's id and adds nothing. -/
theorem hash_collision_merges_distinct_interfaces :
    hash [12, 11] = some 1211 ∧
    hash [121, 1] = some 1211 ∧
    (12 : ℕ) ∉ [121, 1] ∧
    ∃ c1 : InterfaceCollection,
      InterfaceCollection.empty.add_or_retrieve
        [GridVertex.new ⟨0, 0, 0⟩ 12, GridVertex.new ⟨1, 0, 0⟩ 11] = some (0, c1) ∧
      c1.add_or_retrieve
        [GridVertex.new ⟨5, 5, 0⟩ 121, GridVertex.new ⟨7, 7, 0⟩ 1] = some (0, c1) ∧
      c1.interfaces.length = 1 := by
  refine ⟨by decide, by decide, by decide, ?_⟩
  have hk1 : hash [12, 11] = some 1211 := by decide
  have hk2 : hash [121, 1] = some 1211 := by decide
  refine ⟨⟨[(1211, GridInterface.new_line (GridVertex.new ⟨0, 0, 0⟩ 12)
              (GridVertex.new ⟨1, 0, 0⟩ 11) 0)], [(0, 1211)]⟩, ?_, ?_, rfl⟩
  · simp [InterfaceCollection.add_or_retrieve, InterfaceCollection.empty, hk1,
      List.lookup, GridInterface.new_from_vertices, GridInterface.new_line,
      GridVertex.new]
  · simp [InterfaceCollection.add_or_retrieve, hk2, List.lookup,
      GridInterface.new_line, GridVertex.new]

/-! ## C10: equal_to_vertices is a containment test -/

/-- C10: equal_to_vertices holds exactly when every queried vertex id occurs
among the interface's vertex ids — a subset test, not set equality — so it
accepts any list drawn from the interface's own vertices (singletons
included), and the SU2 reader's boundary lookup
(find_interface_with_vertices) matches precisely the interfaces of which the
queried ids are a subset, returning the first such interface's id. -/
theorem equal_to_vertices_is_subset_test :
    (∀ (iface : GridInterface) (other : List GridVertex),
      iface.equal_to_vertices other = true ↔
        ∀ v ∈ other, v.id ∈ iface.vertex_ids) ∧
    (∀ (iface : GridInterface) (v : GridVertex),
      v.id ∈ iface.vertex_ids → iface.equal_to_vertices [v] = true) ∧
    (∀ (interfaces : List GridInterface) (vertices : List GridVertex),
      (find_interface_with_vertices interfaces vertices).isSome ↔
        ∃ iface ∈ interfaces, ∀ v ∈ vertices, v.id ∈ iface.vertex_ids) ∧
    (∀ (interfaces : List GridInterface) (vertices : List GridVertex) (i : ℕ),
      find_interface_with_vertices interfaces vertices = some i →
        ∃ iface ∈ interfaces, iface.id = i ∧
          ∀ v ∈ vertices, v.id ∈ iface.vertex_ids) := by
  have hiff := equal_to_vertices_eq_true_iff
  refine ⟨hiff, ?_, ?_, ?_⟩
  · intro iface v hv
    rw [hiff]
    intro w hw
    rw [List.mem_singleton] at hw
    rw [hw]
    exact hv
  · intro interfaces vertices
    rcases hfind : interfaces.find? (fun iface => iface.equal_to_vertices vertices)
      with _ | iface
    · have hnone := hfind
      rw [List.find?_eq_none] at hnone
      simp only [find_interface_with_vertices, hfind, Option.isSome_none,
        Bool.false_eq_true, false_iff]
      rintro ⟨iface, hmem, hsub⟩
      exact absurd ((hiff iface vertices).mpr hsub) (by simpa using hnone iface hmem)
    · simp only [find_interface_with_vertices, hfind, Option.isSome_some, true_iff]
      exact ⟨iface, List.mem_of_find?_eq_some hfind,
        (hiff iface vertices).mp (by simpa using List.find?_some hfind)⟩
  · intro interfaces vertices i hi
    rcases hfind : interfaces.find? (fun iface => iface.equal_to_vertices vertices)
      with _ | iface
    · rw [find_interface_with_vertices, hfind] at hi
      exact absurd hi (by simp)
    · rw [find_interface_with_vertices, hfind] at hi
      simp only [Option.some.injEq] at hi
      exact ⟨iface, List.mem_of_find?_eq_some hfind, hi,
        (hiff iface vertices).mp (by simpa using List.find?_some hfind)⟩

/-- C10 witness: a singleton query against an interface that contains the
queried vertex. -/
theorem equal_to_vertices_is_subset_test_witness :
    GridInterface.equal_to_vertices
      ⟨[4, 7], 0, ⟨0, 0, 0⟩, ⟨0, 0, 0⟩, ⟨0, 0, 0⟩, ⟨0, 0, 0⟩, InterfaceShape.Line, 0⟩
      [GridVertex.new ⟨0, 0, 0⟩ 7] = true :=
  equal_to_vertices_is_subset_test.2.1
    ⟨[4, 7], 0, ⟨0, 0, 0⟩, ⟨0, 0, 0⟩, ⟨0, 0, 0⟩, ⟨0, 0, 0⟩, InterfaceShape.Line, 0⟩
    (GridVertex.new ⟨0, 0, 0⟩ 7) (by decide)

/-! ## C4: direction classification is total and two-valued -/

/-- C4: compute_direction dots the vector from the interface centre to the
point against the normal; a magnitude below 1e-14 aborts (degenerate
geometry), and otherwise the result is Inwards exactly when the dot product
is positive and Outwards exactly when it is non-positive, so classification
is total and two-valued on non-degenerate input. -/
theorem compute_direction_total_two_valued (iface : GridInterface) (point : Vector3) :
    ((|(point - iface.centre).dot iface.n| < 1e-14) →
      iface.compute_direction point = none) ∧
    ((1e-14 ≤ |(point - iface.centre).dot iface.n|) →
      ((iface.compute_direction point = some Direction.Inwards ↔
          0 < (point - iface.centre).dot iface.n) ∧
       (iface.compute_direction point = some Direction.Outwards ↔
          (point - iface.centre).dot iface.n ≤ 0) ∧
       (iface.compute_direction point).isSome = true)) := by
  constructor
  · intro hdeg
    simp [GridInterface.compute_direction, hdeg]
  · intro hnondeg
    have hnotlt : ¬ |(point - iface.centre).dot iface.n| < 1e-14 := not_lt.mpr hnondeg
    by_cases hpos : 0 < (point - iface.centre).dot iface.n
    · simp [GridInterface.compute_direction, hnotlt, hpos]
    · simp [GridInterface.compute_direction, hnotlt, hpos, not_lt.mp hpos]

/-- C4 witness: a unit normal along x against a point one unit along x from
the interface centre; the dot product is 1. -/
theorem compute_direction_total_two_valued_witness :
    GridInterface.compute_direction
      ⟨[0, 1], 1, ⟨1, 0, 0⟩, ⟨0, 1, 0⟩, ⟨0, 0, 1⟩, ⟨0, 0, 0⟩, InterfaceShape.Line, 0⟩
      ⟨1, 0, 0⟩ = some Direction.Inwards := by
  have hdot : ((⟨1, 0, 0⟩ : Vector3) -
      (⟨[0, 1], 1, ⟨1, 0, 0⟩, ⟨0, 1, 0⟩, ⟨0, 0, 1⟩, ⟨0, 0, 0⟩, InterfaceShape.Line, 0⟩ :
        GridInterface).centre).dot
      (⟨[0, 1], 1, ⟨1, 0, 0⟩, ⟨0, 1, 0⟩, ⟨0, 0, 1⟩, ⟨0, 0, 0⟩, InterfaceShape.Line, 0⟩ :
        GridInterface).n = 1 := by
    simp [Vector3.dot, Vector3.sub_def]
  have h := (compute_direction_total_two_valued
    ⟨[0, 1], 1, ⟨1, 0, 0⟩, ⟨0, 1, 0⟩, ⟨0, 0, 1⟩, ⟨0, 0, 0⟩, InterfaceShape.Line, 0⟩
    ⟨1, 0, 0⟩).2 (by rw [hdot]; norm_num)
  exact h.1.mpr (by rw [hdot]; norm_num)

/-! ## C8: file-type recognition -/

/-- C8 counterexample: not every extension other than su2 fails; the native
extension grid is also recognized. -/
theorem from_file_name_grid_is_recognized :
    GridFileType.from_file_name "block.grid" = Except.ok GridFileType.Native ∧
    ¬ ∃ err, GridFileType.from_file_name "block.grid" = Except.error err := by
  constructor
  · rfl
  · rintro ⟨err, herr⟩
    rw [show GridFileType.from_file_name "block.grid" = Except.ok GridFileType.Native
      from rfl] at herr
    exact absurd herr (by simp)

/-- C8 (amended): file-type recognition maps the extension su2 to the SU2
format and grid to the native format; every other extension yields an
UnknownFileType error carrying the file name and that extension, a missing
extension yields an UnknownFileType error carrying the file name and no
extension, and add_block returns such an error to the caller without
touching the collection. -/
theorem from_file_name_characterization (name : String) :
    (rust_extension name = some "su2" →
      GridFileType.from_file_name name = Except.ok GridFileType.Su2) ∧
    (rust_extension name = some "grid" →
      GridFileType.from_file_name name = Except.ok GridFileType.Native) ∧
    (∀ e, rust_extension name = some e → e ≠ "su2" → e ≠ "grid" →
      GridFileType.from_file_name name = Except.error ⟨name, some e⟩) ∧
    (rust_extension name = none →
      GridFileType.from_file_name name = Except.error ⟨name, none⟩) ∧
    (∀ (c : BlockCollection) (content : List Su2Line) (err : UnknownFileType),
      GridFileType.from_file_name name = Except.error err →
      c.add_block ⟨name, content⟩ = Except.error (GridError.unknownFileType err)) := by
  refine ⟨?_, ?_, ?_, ?_, ?_⟩
  · intro h
    simp [GridFileType.from_file_name, h]
  · intro h
    simp [GridFileType.from_file_name, h]
  · intro e h hne1 hne2
    simp [GridFileType.from_file_name, h, hne1, hne2]
  · intro h
    simp [GridFileType.from_file_name, h]
  · intro c content err herr
    simp [BlockCollection.add_block, herr]

/-- C8 witness: an unrecognized extension on a concrete name, surfaced
unchanged through add_block. -/
theorem from_file_name_characterization_witness :
    GridFileType.from_file_name "mesh.xyz" = Except.error ⟨"mesh.xyz", some "xyz"⟩ ∧
    BlockCollection.new.add_block ⟨"mesh.xyz", []⟩ =
      Except.error (GridError.unknownFileType ⟨"mesh.xyz", some "xyz"⟩) := by
  have h := from_file_name_characterization "mesh.xyz"
  have he : GridFileType.from_file_name "mesh.xyz" =
      Except.error ⟨"mesh.xyz", some "xyz"⟩ :=
    h.2.2.1 "xyz" rfl (by decide) (by decide)
  exact ⟨he, h.2.2.2.2 BlockCollection.new [] ⟨"mesh.xyz", some "xyz"⟩ he⟩

/-! ## C5: cell shape derivation and volume formulas -/

/-- Vertex-count analysis of CellShape::from_number_of_vertices. -/
theorem CellShape.from_number_of_vertices_cases (n : ℕ) (s : CellShape)
    (h : CellShape.from_number_of_vertices n = some s) :
    (n = 3 ∧ s = CellShape.Triangle) ∨ (n = 4 ∧ s = CellShape.Quadrilateral) := by
  unfold CellShape.from_number_of_vertices at h
  split at h <;> simp_all

/-- A panic for any vertex count other than three or four. -/
theorem CellShape.from_number_of_vertices_eq_none (n : ℕ) (h3 : n ≠ 3) (h4 : n ≠ 4) :
    CellShape.from_number_of_vertices n = none := by
  unfold CellShape.from_number_of_vertices
  split <;> simp_all

/-- C5: GridCell::new derives the shape from the vertex count alone (3 gives
Triangle, 4 gives Quadrilateral, anything else is a construction error), the
stored volume is the output of the area formula matching the shape (triangle
cross-product formula resp. quadrilateral shoelace formula, both on the x,y
components only, under an absolute value), the volume is never negative, and
it is strictly positive whenever the vertices are non-degenerate: for a
triangle, whenever the two edge vectors out of the first vertex are linearly
independent in the plane; for a quadrilateral, whenever the two shoelace
sums differ. -/
theorem cell_new_shape_and_volume (interfaces : List GridInterface)
    (vertices : List GridVertex) (id : ℕ) :
    (vertices.length ≠ 3 → vertices.length ≠ 4 →
      GridCell.new interfaces vertices id = none) ∧
    (∀ cell, GridCell.new interfaces vertices id = some cell →
      0 ≤ cell.volume ∧
      ((vertices.length = 3 ∧ cell.shape = CellShape.Triangle ∧
          triangle_area vertices = some cell.volume) ∨
       (vertices.length = 4 ∧ cell.shape = CellShape.Quadrilateral ∧
          quad_area vertices = some cell.volume))) ∧
    (∀ cell va vb vc, vertices = [va, vb, vc] →
      GridCell.new interfaces vertices id = some cell →
      (∀ s t : ℝ,
        s * (vb.pos.x - va.pos.x) + t * (vc.pos.x - va.pos.x) = 0 →
        s * (vb.pos.y - va.pos.y) + t * (vc.pos.y - va.pos.y) = 0 →
        s = 0 ∧ t = 0) →
      0 < cell.volume) ∧
    (∀ cell va vb vc vd, vertices = [va, vb, vc, vd] →
      GridCell.new interfaces vertices id = some cell →
      va.pos.x * vb.pos.y + vb.pos.x * vc.pos.y + vc.pos.x * vd.pos.y + vd.pos.x * va.pos.y ≠
        vb.pos.x * va.pos.y + vc.pos.x * vb.pos.y + vd.pos.x * vc.pos.y + va.pos.x * vd.pos.y →
      0 < cell.volume) := by
  have hvol : ∀ cell, GridCell.new interfaces vertices id = some cell →
      ∃ shape, CellShape.from_number_of_vertices vertices.length = some shape ∧
        cell.shape = shape ∧ shape.volume vertices = some cell.volume := by
    intro cell h
    rw [GridCell.new] at h
    rcases hshape : CellShape.from_number_of_vertices vertices.length with _ | shape
    · rw [hshape] at h
      exact absurd h (by simp)
    · rw [hshape] at h
      simp only [Option.bind_eq_bind, Option.some_bind] at h
      obtain ⟨cell_faces, hfaces, h⟩ := Option.bind_eq_some.mp h
      obtain ⟨vol, hv, h⟩ := Option.bind_eq_some.mp h
      simp only [pure, Option.some.injEq] at h
      refine ⟨shape, rfl, ?_, ?_⟩
      · rw [← h]
      · rw [hv, ← h]
  refine ⟨?_, ?_, ?_, ?_⟩
  · intro h3 h4
    rw [GridCell.new, CellShape.from_number_of_vertices_eq_none _ h3 h4]
    rfl
  · intro cell h
    obtain ⟨shape, hshape, hcellshape, hvolume⟩ := hvol cell h
    rcases CellShape.from_number_of_vertices_cases _ _ hshape with ⟨hlen, hs⟩ | ⟨hlen, hs⟩
    · subst hs
      rcases vertices with _ | ⟨va, rest⟩
      · exact absurd hlen (by simp)
      rcases rest with _ | ⟨vb, rest⟩
      · exact absurd hlen (by simp)
      rcases rest with _ | ⟨vc, rest⟩
      · exact absurd hlen (by simp)
      rcases rest with _ | ⟨vd, rest⟩
      · rw [CellShape.volume, triangle_area] at hvolume
        simp only [Option.some.injEq] at hvolume
        constructor
        · rw [← hvolume]
          positivity
        · exact Or.inl ⟨rfl, hcellshape, by rw [triangle_area, hvolume]⟩
      · exact absurd hlen (by simp)
    · subst hs
      rcases vertices with _ | ⟨va, rest⟩
      · exact absurd hlen (by simp)
      rcases rest with _ | ⟨vb, rest⟩
      · exact absurd hlen (by simp)
      rcases rest with _ | ⟨vc, rest⟩
      · exact absurd hlen (by simp)
      rcases rest with _ | ⟨vd, rest⟩
      · exact absurd hlen (by simp)
      rcases rest with _ | ⟨ve, rest⟩
      · rw [CellShape.volume, quad_area] at hvolume
        simp only [Option.some.injEq] at hvolume
        constructor
        · rw [← hvolume]
          positivity
        · exact Or.inr ⟨rfl, hcellshape, by rw [quad_area, hvolume]⟩
      · exact absurd hlen (by simp)
  · rintro cell va vb vc rfl h hindep
    obtain ⟨shape, hshape, hcellshape, hvolume⟩ := hvol cell h
    have hs : shape = CellShape.Triangle := by
      rcases CellShape.from_number_of_vertices_cases _ _ hshape with ⟨_, hs⟩ | ⟨hlen, _⟩
      · exact hs
      · exact absurd hlen (by simp)
    subst hs
    rw [CellShape.volume, triangle_area] at hvolume
    simp only [Option.some.injEq] at hvolume
    rw [← hvolume]
    have hexpr : va.pos.x * (vb.pos.y - vc.pos.y) + vb.pos.x * (vc.pos.y - va.pos.y)
        + vc.pos.x * (va.pos.y - vb.pos.y) ≠ 0 := by
      intro hdet
      by_cases hux : vb.pos.x - va.pos.x = 0
      · by_cases huy : vb.pos.y - va.pos.y = 0
        · have h10 := hindep 1 0 (by rw [hux]; ring) (by rw [huy]; ring)
          exact one_ne_zero h10.1
        · have hvx : vc.pos.x - va.pos.x = 0 := by
            have hprod : (vb.pos.y - va.pos.y) * (vc.pos.x - va.pos.x) = 0 := by
              linear_combination (vc.pos.y - va.pos.y) * hux - hdet
            rcases mul_eq_zero.mp hprod with h1 | h1
            · exact absurd h1 huy
            · exact h1
          have hdep := hindep (vc.pos.y - va.pos.y) (-(vb.pos.y - va.pos.y))
            (by rw [hux, hvx]; ring) (by ring)
          exact huy (by linarith [hdep.2])
      · have hdep := hindep (vc.pos.x - va.pos.x) (-(vb.pos.x - va.pos.x))
          (by ring) (by linear_combination -hdet)
        exact hux (by linarith [hdep.2])
    positivity
  · rintro cell va vb vc vd rfl h hne
    obtain ⟨shape, hshape, hcellshape, hvolume⟩ := hvol cell h
    have hs : shape = CellShape.Quadrilateral := by
      rcases CellShape.from_number_of_vertices_cases _ _ hshape with ⟨hlen, _⟩ | ⟨_, hs⟩
      · exact absurd hlen (by simp)
      · exact hs
    subst hs
    rw [CellShape.volume, quad_area] at hvolume
    simp only [Option.some.injEq] at hvolume
    rw [← hvolume]
    have hdiff : va.pos.x * vb.pos.y + vb.pos.x * vc.pos.y + vc.pos.x * vd.pos.y
        + vd.pos.x * va.pos.y
        - (vb.pos.x * va.pos.y + vc.pos.x * vb.pos.y + vd.pos.x * vc.pos.y
        + va.pos.x * vd.pos.y) ≠ 0 := sub_ne_zero.mpr hne
    positivity

/-- C5 witness: the spec's unit right triangle (0,0), (1,0), (0.5,1) built
with no bounding interfaces; its volume is strictly positive, and in fact
the formula output. -/
theorem cell_new_shape_and_volume_witness :
    ∃ cell, GridCell.new [] [GridVertex.new ⟨0, 0, 0⟩ 0, GridVertex.new ⟨1, 0, 0⟩ 1,
        GridVertex.new ⟨1 / 2, 1, 0⟩ 2] 7 = some cell ∧ 0 < cell.volume := by
  have hnew : GridCell.new [] [GridVertex.new ⟨0, 0, 0⟩ 0, GridVertex.new ⟨1, 0, 0⟩ 1,
      GridVertex.new ⟨1 / 2, 1, 0⟩ 2] 7 =
      some ⟨[0, 1, 2], [], CellShape.Triangle,
        (1 / 2) * |(0 : ℝ) * (0 - 1) + 1 * (1 - 0) + (1 / 2) * (0 - 0)|,
        compute_centre_of_vertices [GridVertex.new ⟨0, 0, 0⟩ 0, GridVertex.new ⟨1, 0, 0⟩ 1,
          GridVertex.new ⟨1 / 2, 1, 0⟩ 2], 7⟩ := by
    rw [GridCell.new]
    rfl
  refine ⟨_, hnew, ?_⟩
  apply (cell_new_shape_and_volume [] [GridVertex.new ⟨0, 0, 0⟩ 0,
      GridVertex.new ⟨1, 0, 0⟩ 1, GridVertex.new ⟨1 / 2, 1, 0⟩ 2] 7).2.2.1
    _ _ _ _ rfl hnew
  intro s t hx hy
  simp only [GridVertex.new] at hx hy
  norm_num at hx hy
  constructor <;> linarith

/-! ## C6: interface construction from two vertices -/

/-- C6: an interface built from exactly two vertices records tangent1 as the
unit vector from the first to the second vertex, tangent2 as (0,0,1), the
normal as the normalization of tangent1 × tangent2, the area as the
Euclidean distance between the two vertices, and the centroid as the mean of
the two positions; concretely, the interface between (0,0) and (1,1) has
area sqrt 2 and normal (1/sqrt 2, -1/sqrt 2, 0). -/
theorem interface_new_from_two_vertices :
    (∀ (v0 v1 : GridVertex) (id : ℕ) (iface : GridInterface),
      GridInterface.new_from_vertices [v0, v1] id = some iface →
        iface.t1 = (v0.vector_to v1).normalised ∧
        iface.t2 = ⟨0, 0, 1⟩ ∧
        iface.n = ((v0.vector_to v1).normalised.cross ⟨0, 0, 1⟩).normalised ∧
        iface.area = v0.pos.dist_to v1.pos ∧
        iface.centre = (v0.pos + v1.pos).scale (1 / 2) ∧
        iface.vertex_ids = [v0.id, v1.id] ∧
        iface.id = id) ∧
    (∃ iface, GridInterface.new_from_vertices
        [GridVertex.new ⟨0, 0, 0⟩ 0, GridVertex.new ⟨1, 1, 0⟩ 1] 0 = some iface ∧
      iface.area = Real.sqrt 2 ∧
      iface.n = ⟨1 / Real.sqrt 2, -(1 / Real.sqrt 2), 0⟩) := by
  have hgen : ∀ (v0 v1 : GridVertex) (id : ℕ) (iface : GridInterface),
      GridInterface.new_from_vertices [v0, v1] id = some iface →
        iface = GridInterface.new_line v0 v1 id := by
    intro v0 v1 id iface h
    rw [GridInterface.new_from_vertices_pair] at h
    exact (Option.some.injEq _ _).mp h.symm
  constructor
  · intro v0 v1 id iface h
    rw [hgen v0 v1 id iface h]
    refine ⟨rfl, rfl, rfl, ?_, ?_, rfl, rfl⟩
    · rw [GridInterface.new_line]
      simp only [GridVertex.vector_to, Vector3.length, Vector3.sub_def,
        Vector3.dist_to]
    · rw [GridInterface.new_line]
      simp only [compute_centre_of_vertices, List.foldl, Vector3.add_def,
        Vector3.scale, List.length_cons, List.length_nil]
      norm_num
  · have hs2 : (0 : ℝ) < Real.sqrt 2 := Real.sqrt_pos.mpr (by norm_num)
    have hmul : (1 / Real.sqrt 2) * (1 / Real.sqrt 2) = 1 / 2 := by
      rw [div_mul_div_comm, one_mul, Real.mul_self_sqrt (by norm_num)]
    have hlen : (GridVertex.new ⟨0, 0, 0⟩ 0).vector_to (GridVertex.new ⟨1, 1, 0⟩ 1)
        = ⟨1, 1, 0⟩ := by
      simp only [GridVertex.vector_to, GridVertex.new, Vector3.sub_def]
      norm_num
    refine ⟨GridInterface.new_line (GridVertex.new ⟨0, 0, 0⟩ 0) (GridVertex.new ⟨1, 1, 0⟩ 1) 0,
      GridInterface.new_from_vertices_pair _ _ _, ?_, ?_⟩
    · show ((GridVertex.new ⟨0, 0, 0⟩ 0).vector_to (GridVertex.new ⟨1, 1, 0⟩ 1)).length
        = Real.sqrt 2
      rw [hlen, Vector3.length]
      norm_num
    · show ((((GridVertex.new ⟨0, 0, 0⟩ 0).vector_to
          (GridVertex.new ⟨1, 1, 0⟩ 1)).normalised.cross ⟨0, 0, 1⟩)).normalised
        = (⟨1 / Real.sqrt 2, -(1 / Real.sqrt 2), 0⟩ : Vector3)
      rw [hlen]
      have hnorm : (⟨1, 1, 0⟩ : Vector3).normalised
          = ⟨1 / Real.sqrt 2, 1 / Real.sqrt 2, 0⟩ := by
        rw [Vector3.normalised, Vector3.length]
        norm_num
      rw [hnorm]
      have hcross : (⟨1 / Real.sqrt 2, 1 / Real.sqrt 2, 0⟩ : Vector3).cross ⟨0, 0, 1⟩
          = ⟨1 / Real.sqrt 2, -(1 / Real.sqrt 2), 0⟩ := by
        rw [Vector3.cross]
        norm_num
      rw [hcross, Vector3.normalised, Vector3.length]
      have harg : (1 / Real.sqrt 2) * (1 / Real.sqrt 2)
          + -(1 / Real.sqrt 2) * -(1 / Real.sqrt 2) + (0 : ℝ) * 0 = 1 := by
        rw [neg_mul_neg, hmul]
        norm_num
      rw [harg, Real.sqrt_one]
      norm_num

/-- C6 witness: the general field equations applied to the concrete pair
(2,0,0), (2,4,0). -/
theorem interface_new_from_two_vertices_witness :
    ∃ iface, GridInterface.new_from_vertices
        [GridVertex.new ⟨2, 0, 0⟩ 5, GridVertex.new ⟨2, 4, 0⟩ 6] 3 = some iface ∧
      iface.area = (GridVertex.new ⟨2, 0, 0⟩ 5).pos.dist_to (GridVertex.new ⟨2, 4, 0⟩ 6).pos ∧
      iface.vertex_ids = [5, 6] ∧ iface.id = 3 := by
  refine ⟨GridInterface.new_line (GridVertex.new ⟨2, 0, 0⟩ 5) (GridVertex.new ⟨2, 4, 0⟩ 6) 3,
    GridInterface.new_from_vertices_pair _ _ _, ?_⟩
  have h := interface_new_from_two_vertices.1 (GridVertex.new ⟨2, 0, 0⟩ 5)
    (GridVertex.new ⟨2, 4, 0⟩ 6) 3 _ (GridInterface.new_from_vertices_pair _ _ _)
  exact ⟨h.2.2.2.1, h.2.2.2.2.2.1, h.2.2.2.2.2.2⟩

/-- C1 witness: the round trip applied to the unit-square fixture block. -/
theorem read_write_roundtrip_witness :
    read_su2 (write_su2 square_block) 0 = some square_block := by
  refine read_write_roundtrip square_lines 0 square_block square_read
    ?_ (Or.inl rfl) ?_ ?_
  · intro k v h
    match k, h with
    | 0, h =>
      have h2 : some (⟨⟨0, 0, 0⟩, 0⟩ : GridVertex) = some v := h
      injection h2 with h2
      rw [← h2]
    | 1, h =>
      have h2 : some (⟨⟨1, 0, 0⟩, 1⟩ : GridVertex) = some v := h
      injection h2 with h2
      rw [← h2]
    | 2, h =>
      have h2 : some (⟨⟨1, 1, 0⟩, 2⟩ : GridVertex) = some v := h
      injection h2 with h2
      rw [← h2]
    | 3, h =>
      have h2 : some (⟨⟨0, 1, 0⟩, 3⟩ : GridVertex) = some v := h
      injection h2 with h2
      rw [← h2]
    | n + 4, h => exact Option.noConfusion h
  · intro _ v hv
    have hv2 : v ∈ square_vertices := hv
    fin_cases hv2 <;> rfl
  · intro cell hcell
    have h2 : cell ∈ [square_cell] := hcell
    rw [List.mem_singleton] at h2
    subst h2
    rfl

/-! ## C7: positional block ids in reachable collections -/

/-- C7: in every block collection reachable through the loader interface
(BlockCollection::new followed by successful add_block calls), the block
stored at index i carries id i: add_block hands the reader the collection
length as the new block's id and appends the result, blocks are never
removed, and get_block is positional lookup, so every lookup returns a block
whose id equals the queried index. -/
theorem block_ids_are_positional (c : BlockCollection) (h : Reachable c) :
    ∀ i block, c.get_block i = some block → block.id = i := by
  induction h with
  | new =>
    intro i block hi
    have hnone : BlockCollection.new.get_block i = none :=
      List.get?_eq_none.mpr (by simp [BlockCollection.new])
    rw [hnone] at hi
    exact Option.noConfusion hi
  | add_ok hre hadd ih =>
    rename_i c0 file c1
    intro i block hi
    rw [BlockCollection.add_block] at hadd
    rcases hft : GridFileType.from_file_name file.name with err | ft
    · rw [hft] at hadd
      exact Except.noConfusion hadd
    · rw [hft] at hadd
      rcases hrd : read_su2 file.content c0.blocks.length with _ | blk
      · rw [hrd] at hadd
        exact Except.noConfusion hadd
      · rw [hrd] at hadd
        injection hadd with hadd
        subst hadd
        have hi2 : (c0.blocks ++ [blk]).get? i = some block := hi
        rcases Nat.lt_or_ge i c0.blocks.length with hlt | hge
        · rw [List.get?_append hlt] at hi2
          exact ih i block hi2
        · rw [List.get?_append_right hge] at hi2
          have hbound := (List.get?_eq_some.mp hi2).1
          simp only [List.length_singleton] at hbound
          have hzero : i - c0.blocks.length = 0 := by omega
          rw [hzero] at hi2
          have hblk : some blk = some block := hi2
          injection hblk with hblk
          have hieq : i = c0.blocks.length := by omega
          rw [← hblk, hieq]
          exact read_su2_id file.content c0.blocks.length blk hrd

/-- C7 witness: loading the square fixture into a fresh collection stores it
at index 0 with id 0. -/
theorem block_ids_are_positional_witness :
    BlockCollection.new.add_block ⟨"square.su2", square_lines⟩
      = Except.ok ⟨[square_block]⟩ ∧
    (⟨[square_block]⟩ : BlockCollection).get_block 0 = some square_block ∧
    square_block.id = 0 := by
  have hadd : BlockCollection.new.add_block ⟨"square.su2", square_lines⟩
      = Except.ok ⟨[square_block]⟩ := by
    rw [BlockCollection.add_block]
    rw [show GridFileType.from_file_name
        (⟨"square.su2", square_lines⟩ : GridFile).name
      = Except.ok GridFileType.Su2 from rfl]
    rw [show read_su2 (⟨"square.su2", square_lines⟩ : GridFile).content
        BlockCollection.new.blocks.length
      = some square_block from square_read]
    rfl
  refine ⟨hadd, rfl, ?_⟩
  exact block_ids_are_positional ⟨[square_block]⟩
    (Reachable.add_ok Reachable.new hadd) 0 square_block rfl

end

end Aeolus
